import Mathlib

/-
Verification of the db-autofill repository.

The development shallowly embeds the two core components of the program:

* `get_insertion_order` (src/src/dependency_analyzer.py): Kahn's topological
  sort over the foreign-key graph of a schema.

* `DataGenerator.generate_row` / `DataGenerator._generate_value`
  (src/src/data_generator.py): per-column constraint-aware value synthesis
  with a uniqueness tracker, plus the orchestration loop of
  src/src/autofill.py.

Python dictionaries are embedded as association lists (dict iteration order =
insertion order = list order).  Python sets have an unspecified iteration
order; wherever that order is observable (the seeding of the work queue and
the iteration over a node's children in the topological sort) it is passed in
explicitly and the theorems quantify over it.  Randomness (the `random` and
`faker` libraries) is embedded as an explicit oracle stream.
-/

namespace DbAutofill

/-! ## Data model (schema_parser.extract_schema output shape)

A column entry as built by `extract_schema` holds the keys
`type`, `is_nullable`, `default`, `is_identity` and, when applicable,
`is_pk` / `is_unique`.  Note that no `name` key is ever stored in the
per-column dictionary. -/

structure ColumnInfo where
  type : String
  is_nullable : Bool
  default : Option String
  is_identity : Bool
  is_pk : Bool := false
  is_unique : Bool := false
deriving DecidableEq

structure FKRef where
  references_table : String
  references_column : String
deriving DecidableEq

structure TableSchema where
  columns : List (String × ColumnInfo)
  foreign_keys : List (String × FKRef)
  unique_columns : List String
deriving DecidableEq

/-- A schema: table name to table description, in catalog iteration order. -/
abbrev Schema := List (String × TableSchema)

def tablesOf (schema : Schema) : List String := schema.map Prod.fst

def lookupTable (schema : Schema) (t : String) : Option TableSchema :=
  (schema.find? (fun p => p.1 == t)).map Prod.snd

/-! ## Dependency analyzer (src/src/dependency_analyzer.py)

`get_insertion_order` builds a parent-to-child graph from the foreign keys,
dropping self-references and references to tables absent from the schema,
and runs Kahn's algorithm. -/

/-- The set of parents (referenced tables) of one table, as collected by the
loop over `details['foreign_keys']`: self-references and references to
tables outside the schema are dropped, and the Python `set` is modelled by
deduplication. -/
def depsOf (schema : Schema) (child : String) (details : TableSchema) : List String :=
  ((details.foreign_keys.map (fun p => p.2.references_table)).filter
    (fun parent => parent != child && (tablesOf schema).contains parent)).dedup

/-- Parents of a table looked up in the schema (empty for a non-table). -/
def parentsOf (schema : Schema) (c : String) : List String :=
  match lookupTable schema c with
  | some d => depsOf schema c d
  | none => []

/-- The dependency edge relation: `Edge schema p c` holds when table `c`
has a foreign key referencing table `p` (after the filtering above). -/
def Edge (schema : Schema) (p c : String) : Prop := p ∈ parentsOf schema c

instance (schema : Schema) (p c : String) : Decidable (Edge schema p c) :=
  inferInstanceAs (Decidable (p ∈ parentsOf schema c))

/-- `in_degree[t]` as initialised by the graph-building loop: one unit per
distinct retained parent. -/
def indeg0 (schema : Schema) (t : String) : Int := ((parentsOf schema t).length : Int)

/-- The body `for child in adj_list[node]: in_degree[child] -= 1;
if in_degree[child] == 0: queue.append(child)`. -/
def processChildren : List String → (String → Int) → List String → ((String → Int) × List String)
  | [], indeg, queue => (indeg, queue)
  | c :: rest, indeg, queue =>
    let d := indeg c - 1
    processChildren rest (fun t => if t = c then d else indeg t)
      (if d = 0 then queue ++ [c] else queue)

/-- The `while queue:` loop of Kahn's algorithm.  Each iteration pops the
queue head, appends it to the result and processes its children.  The loop
runs at most one iteration per table (each table enters the queue at most
once), so it is given the table count as fuel. -/
def kahnLoop (adj : String → List String) :
    Nat → List String → (String → Int) → List String → List String
  | _, [], _, ordered => ordered
  | 0, _ :: _, _, ordered => ordered
  | fuel + 1, node :: rest, indeg, ordered =>
    let pr := processChildren (adj node) indeg rest
    kahnLoop adj fuel pr.2 pr.1 (ordered ++ [node])

/-- A canonical choice for the children-iteration order of the Python set
`adj_list[node]` (theorems quantify over every valid choice). -/
def adjOf (schema : Schema) (p : String) : List String :=
  (tablesOf schema).filter (fun c => decide (Edge schema p c))

/-- `get_insertion_order(schema)`.  `seed` is the iteration order of the
Python set `tables` (used for the initial queue comprehension) and `adj`
gives the iteration order of each `adj_list[node]`.  On success the ordered
table list is returned; otherwise the unordered remainder
`tables - set(ordered)` is reported via `CircularDependencyError`. -/
def get_insertion_order (schema : Schema) (seed : List String)
    (adj : String → List String) : Except (List String) (List String) :=
  let tables := tablesOf schema
  let q0 := seed.filter (fun t => indeg0 schema t == 0)
  let ordered := kahnLoop adj tables.length q0 (indeg0 schema) []
  if ordered.length = tables.length then Except.ok ordered
  else Except.error (tables.filter (fun t => ! ordered.contains t))

/-- Validity of a children-iteration choice: for every node it enumerates
exactly the children of that node in the edge relation, without repetition
(it is the iteration of a Python set). -/
def AdjValid (schema : Schema) (adj : String → List String) : Prop :=
  ∀ p, (adj p).Nodup ∧ ∀ c, c ∈ adj p ↔ Edge schema p c

/-- Acyclicity of the (finite) foreign-key graph: the edge relation is
well-founded, i.e. there is no infinite chain of parents, which for a
finite graph is exactly the absence of a cycle. -/
def Acyclic (schema : Schema) : Prop := WellFounded (Edge schema)

/-- A cycle in the dependency graph: a nonempty list of tables each of which
has an edge to the next, the last one closing back to the first.  Since
edges exclude self-references, a one-element cycle is impossible. -/
def IsCycle (schema : Schema) (l : List String) : Prop :=
  match l with
  | [] => False
  | v :: rest => List.Chain (Edge schema) v (rest ++ [v])

/-- Executable chain check for the edge relation (used for decidability of
`IsCycle` by kernel reduction). -/
def edgeChainB (schema : Schema) : String → List String → Bool
  | _, [] => true
  | a, b :: l => decide (Edge schema a b) && edgeChainB schema b l

lemma edgeChainB_iff (schema : Schema) :
    ∀ (l : List String) (a : String),
      edgeChainB schema a l = true ↔ List.Chain (Edge schema) a l := by
  intro l
  induction l with
  | nil => intro a; simp [edgeChainB]
  | cons b l2 ih =>
    intro a
    simp [edgeChainB, List.chain_cons, ih b]

instance (schema : Schema) : (l : List String) → Decidable (IsCycle schema l)
  | [] => isFalse (fun h => h)
  | v :: rest => decidable_of_iff _ (edgeChainB_iff schema (rest ++ [v]) v)

instance {ε α : Type} [DecidableEq ε] [DecidableEq α] : DecidableEq (Except ε α) := fun x y =>
  match x, y with
  | .ok a, .ok b =>
    if h : a = b then .isTrue (by rw [h]) else .isFalse (by simp [h])
  | .error a, .error b =>
    if h : a = b then .isTrue (by rw [h]) else .isFalse (by simp [h])
  | .ok _, .error _ => .isFalse (by simp)
  | .error _, .ok _ => .isFalse (by simp)

/-! ## Basic facts about the dependency graph -/

lemma Edge.mem_tables {schema : Schema} {p c : String} (h : Edge schema p c) :
    c ∈ tablesOf schema := by
  unfold Edge parentsOf lookupTable at h
  cases hf : schema.find? (fun q => q.1 == c) with
  | none => rw [hf] at h; simp at h
  | some q =>
    have hq := List.find?_some hf
    have hmem := List.mem_of_find?_eq_some hf
    simp at hq
    subst hq
    exact List.mem_map_of_mem Prod.fst hmem

lemma Edge.parent_mem_tables {schema : Schema} {p c : String} (h : Edge schema p c) :
    p ∈ tablesOf schema := by
  unfold Edge parentsOf at h
  cases hf : lookupTable schema c with
  | none => rw [hf] at h; simp at h
  | some d =>
    rw [hf] at h
    unfold depsOf at h
    rw [List.mem_dedup, List.mem_filter] at h
    have := h.2
    simp only [Bool.and_eq_true, bne_iff_ne, ne_eq] at this
    simpa using this.2

lemma Edge.ne {schema : Schema} {p c : String} (h : Edge schema p c) : p ≠ c := by
  unfold Edge parentsOf at h
  cases hf : lookupTable schema c with
  | none => rw [hf] at h; simp at h
  | some d =>
    rw [hf] at h
    unfold depsOf at h
    rw [List.mem_dedup, List.mem_filter] at h
    have := h.2
    simp only [Bool.and_eq_true, bne_iff_ne, ne_eq] at this
    exact this.1

lemma parentsOf_nodup (schema : Schema) (c : String) : (parentsOf schema c).Nodup := by
  unfold parentsOf
  cases lookupTable schema c with
  | none => simp
  | some d => exact List.nodup_dedup _

lemma mem_parentsOf_iff {schema : Schema} {p c : String} :
    p ∈ parentsOf schema c ↔ Edge schema p c := Iff.rfl

/-! ## Characterisation of one children-processing pass -/

lemma processChildren_fst (children : List String) (indeg : String → Int)
    (queue : List String) (hn : children.Nodup) (t : String) :
    (processChildren children indeg queue).1 t =
      if t ∈ children then indeg t - 1 else indeg t := by
  induction children generalizing indeg queue with
  | nil => simp [processChildren]
  | cons c rest ih =>
    have hcr : c ∉ rest := (List.nodup_cons.mp hn).1
    rw [processChildren, ih _ _ (List.nodup_cons.mp hn).2]
    by_cases ht : t ∈ rest
    · have htc : t ≠ c := fun h => hcr (h ▸ ht)
      simp [ht, htc, List.mem_cons]
    · by_cases htc : t = c
      · subst htc; simp [ht, hcr]
      · simp [ht, htc, List.mem_cons]

lemma processChildren_snd (children : List String) (indeg : String → Int)
    (queue : List String) (hn : children.Nodup) :
    (processChildren children indeg queue).2 =
      queue ++ children.filter (fun c => indeg c - 1 == 0) := by
  induction children generalizing indeg queue with
  | nil => simp [processChildren]
  | cons c rest ih =>
    have hcr : c ∉ rest := (List.nodup_cons.mp hn).1
    rw [processChildren, ih _ _ (List.nodup_cons.mp hn).2]
    have hrest : rest.filter (fun x => (if x = c then indeg c - 1 else indeg x) - 1 == 0)
        = rest.filter (fun x => indeg x - 1 == 0) := by
      apply List.filter_congr
      intro x hx
      have : x ≠ c := fun h => hcr (h ▸ hx)
      simp [this]
    rw [hrest]
    by_cases hd : indeg c - 1 = 0
    · simp [hd, List.filter_cons]
    · have : (indeg c - 1 == 0) = false := by simpa using hd
      simp [hd, List.filter_cons, this]

/-! ## The Kahn loop invariant -/

lemma length_filter_ne {m : List String} {n : String} (hm : m.Nodup) (hn : n ∈ m) :
    (m.filter (fun p => !(p == n))).length + 1 = m.length := by
  induction m with
  | nil => cases hn
  | cons a m ih =>
    by_cases han : a = n
    · subst han
      have hfix : m.filter (fun p => !(p == a)) = m := by
        apply List.filter_eq_self.mpr
        intro x hx
        have hxa : x ≠ a := fun he => (List.nodup_cons.mp hm).1 (he ▸ hx)
        simp [hxa]
      simp [List.filter_cons, hfix]
    · have hnm : n ∈ m := by
        rcases List.mem_cons.mp hn with h | h
        · exact absurd h.symm han
        · exact h
      have ihm := ih (List.nodup_cons.mp hm).2 hnm
      simp only [List.filter_cons]
      have hba : (!(a == n)) = true := by simpa using han
      rw [hba, if_pos rfl]
      simp only [List.length_cons]
      omega

/-- The loop invariant of Kahn's algorithm as implemented in
`get_insertion_order`: the processed prefix `ordered` and the work queue are
duplicate-free table lists, the queue holds exactly the unprocessed tables of
in-degree zero, `indeg` counts the unprocessed parents of each table, and
every processed table appears after all of its parents. -/
structure KahnInv (schema : Schema) (queue : List String) (indeg : String → Int)
    (ordered : List String) : Prop where
  ordered_nodup : ordered.Nodup
  ordered_sub : ∀ t ∈ ordered, t ∈ tablesOf schema
  queue_nodup : queue.Nodup
  queue_sub : ∀ t ∈ queue, t ∈ tablesOf schema
  queue_disj : ∀ t ∈ queue, t ∉ ordered
  indeg_eq : ∀ c ∈ tablesOf schema,
    indeg c = (((parentsOf schema c).filter (fun p => ! ordered.contains p)).length : Int)
  ready_iff : ∀ c ∈ tablesOf schema, c ∉ ordered → (c ∈ queue ↔ indeg c = 0)
  topo : ∀ p c, Edge schema p c → c ∈ ordered → List.Sublist [p, c] ordered

lemma KahnInv.parents_ordered {schema : Schema} {queue : List String}
    {indeg : String → Int} {ordered : List String}
    (inv : KahnInv schema queue indeg ordered) {node : String}
    (hnode_tab : node ∈ tablesOf schema) (hz : indeg node = 0) :
    ∀ p, Edge schema p node → p ∈ ordered := by
  intro p hp
  have hie := inv.indeg_eq node hnode_tab
  rw [hz] at hie
  have hlen : ((parentsOf schema node).filter (fun p => ! ordered.contains p)).length = 0 := by
    exact_mod_cast hie.symm
  by_contra hpo
  have hmem : p ∈ (parentsOf schema node).filter (fun p => ! ordered.contains p) := by
    rw [List.mem_filter]
    exact ⟨hp, by simpa using hpo⟩
  rw [List.length_eq_zero.mp hlen] at hmem
  cases hmem

lemma KahnInv.step {schema : Schema} {adj : String → List String}
    (hadj : AdjValid schema adj)
    {node : String} {rest : List String} {indeg : String → Int} {ordered : List String}
    (inv : KahnInv schema (node :: rest) indeg ordered) :
    KahnInv schema (processChildren (adj node) indeg rest).2
      (processChildren (adj node) indeg rest).1 (ordered ++ [node]) := by
  have hcn : (adj node).Nodup := (hadj node).1
  have hce : ∀ c, c ∈ adj node ↔ Edge schema node c := (hadj node).2
  have hfst := processChildren_fst (adj node) indeg rest hcn
  have hsnd := processChildren_snd (adj node) indeg rest hcn
  have hnode_tab : node ∈ tablesOf schema := inv.queue_sub node (List.mem_cons_self _ _)
  have hnode_not : node ∉ ordered := inv.queue_disj node (List.mem_cons_self _ _)
  have hnode_rest : node ∉ rest := (List.nodup_cons.mp inv.queue_nodup).1
  have hnode_indeg : indeg node = 0 :=
    (inv.ready_iff node hnode_tab hnode_not).mp (List.mem_cons_self _ _)
  have hpar : ∀ p, Edge schema p node → p ∈ ordered :=
    inv.parents_ordered hnode_tab hnode_indeg
  -- membership in the enqueued filter
  have hfilt : ∀ c, c ∈ (adj node).filter (fun c => indeg c - 1 == 0) ↔
      (Edge schema node c ∧ indeg c = 1) := by
    intro c
    rw [List.mem_filter, hce]
    constructor
    · rintro ⟨h1, h2⟩
      refine ⟨h1, ?_⟩
      have : indeg c - 1 = 0 := by simpa using h2
      omega
    · rintro ⟨h1, h2⟩
      exact ⟨h1, by simp [h2]⟩
  -- an enqueued child is not yet ordered
  have hfilt_not_ord : ∀ c, Edge schema node c → c ∉ ordered := by
    intro c hc hco
    have hsub := inv.topo node c hc hco
    exact hnode_not (hsub.subset (by simp))
  refine ⟨?_, ?_, ?_, ?_, ?_, ?_, ?_, ?_⟩
  · -- ordered_nodup
    rw [List.nodup_append]
    exact ⟨inv.ordered_nodup, List.nodup_singleton _, by simpa using hnode_not⟩
  · -- ordered_sub
    intro t ht
    rcases List.mem_append.mp ht with h | h
    · exact inv.ordered_sub t h
    · simp at h; subst h; exact hnode_tab
  · -- queue_nodup
    rw [hsnd, List.nodup_append]
    refine ⟨(List.nodup_cons.mp inv.queue_nodup).2, hcn.filter _, ?_⟩
    intro c hc hcf
    have h1 := (hfilt c).mp hcf
    have hc_tab : c ∈ tablesOf schema := inv.queue_sub c (List.mem_cons_of_mem _ hc)
    have hc_not : c ∉ ordered := inv.queue_disj c (List.mem_cons_of_mem _ hc)
    have := (inv.ready_iff c hc_tab hc_not).mp (List.mem_cons_of_mem _ hc)
    omega
  · -- queue_sub
    intro t ht
    rw [hsnd] at ht
    rcases List.mem_append.mp ht with h | h
    · exact inv.queue_sub t (List.mem_cons_of_mem _ h)
    · exact ((hfilt t).mp h).1.mem_tables
  · -- queue_disj
    intro t ht hto
    rw [hsnd] at ht
    rcases List.mem_append.mp ht with h | h
    · rcases List.mem_append.mp hto with h2 | h2
      · exact inv.queue_disj t (List.mem_cons_of_mem _ h) h2
      · simp at h2; subst h2; exact hnode_rest h
    · have h1 := (hfilt t).mp h
      rcases List.mem_append.mp hto with h2 | h2
      · exact hfilt_not_ord t h1.1 h2
      · simp at h2; subst h2; exact (h1.1.ne) rfl
  · -- indeg_eq
    intro c hc
    rw [hfst]
    by_cases hmem : c ∈ adj node
    · have hedge : Edge schema node c := (hce c).mp hmem
      have hnp : node ∈ parentsOf schema c := hedge
      rw [inv.indeg_eq c hc]
      have hsplit : (parentsOf schema c).filter (fun p => ! (ordered ++ [node]).contains p)
          = ((parentsOf schema c).filter (fun p => ! ordered.contains p)).filter
              (fun p => !(p == node)) := by
        rw [List.filter_filter]
        apply List.filter_congr
        intro x _
        by_cases hx : x = node
        · subst hx; simp
        · simp [hx]
      have hm_nodup : ((parentsOf schema c).filter (fun p => ! ordered.contains p)).Nodup :=
        (parentsOf_nodup schema c).filter _
      have hm_mem : node ∈ (parentsOf schema c).filter (fun p => ! ordered.contains p) := by
        rw [List.mem_filter]
        exact ⟨hnp, by simpa using hnode_not⟩
      have hlen := length_filter_ne hm_nodup hm_mem
      simp only [hmem, if_pos, hsplit]
      omega
    · have hnedge : ¬ Edge schema node c := fun h => hmem ((hce c).mpr h)
      have hnp : node ∉ parentsOf schema c := hnedge
      rw [inv.indeg_eq c hc]
      have hsplit : (parentsOf schema c).filter (fun p => ! (ordered ++ [node]).contains p)
          = (parentsOf schema c).filter (fun p => ! ordered.contains p) := by
        apply List.filter_congr
        intro x hx
        have hxn : x ≠ node := fun he => hnp (he ▸ hx)
        simp [hxn]
      simp only [hmem, if_neg, hsplit, not_false_eq_true]
  · -- ready_iff
    intro c hc hco
    have hco1 : c ∉ ordered := fun h => hco (List.mem_append.mpr (Or.inl h))
    have hcn2 : c ≠ node := by
      intro h; exact hco (List.mem_append.mpr (Or.inr (by simp [h])))
    rw [hfst, hsnd]
    by_cases hmem : c ∈ adj node
    · have hedge : Edge schema node c := (hce c).mp hmem
      have hne0 : indeg c ≠ 0 := by
        intro h0
        exact hnode_not (inv.parents_ordered hc h0 node hedge)
      have hnotrest : c ∉ rest := by
        intro hr
        exact hne0 ((inv.ready_iff c hc hco1).mp (List.mem_cons_of_mem _ hr))
      simp only [hmem, if_pos, List.mem_append, hnotrest, false_or]
      rw [hfilt c]
      constructor
      · rintro ⟨_, h⟩; omega
      · intro h; exact ⟨hedge, by omega⟩
    · have hold := inv.ready_iff c hc hco1
      simp only [List.mem_cons, hcn2, false_or] at hold
      simp only [hmem, if_neg, List.mem_append, not_false_eq_true]
      rw [hold]
      constructor
      · rintro (h | h)
        · exact h
        · exact absurd ((hfilt c).mp h).1 (fun he => hmem ((hce c).mpr he))
      · exact Or.inl
  · -- topo
    intro p c hpc hco
    rcases List.mem_append.mp hco with h | h
    · exact (inv.topo p c hpc h).trans (List.sublist_append_left _ _)
    · simp at h; subst h
      have hp : p ∈ ordered := hpar p hpc
      have h1 : List.Sublist [p] ordered := List.singleton_sublist.mpr hp
      simpa using h1.append (List.Sublist.refl [c])

/-- The invariant holds at loop entry. -/
lemma kahn_initial_inv {schema : Schema} {seed : List String}
    (hTab : (tablesOf schema).Nodup) (hseed : seed.Perm (tablesOf schema)) :
    KahnInv schema (seed.filter (fun t => indeg0 schema t == 0)) (indeg0 schema) [] := by
  have hseed_nodup : seed.Nodup := hseed.nodup_iff.mpr hTab
  refine ⟨List.nodup_nil, by simp, hseed_nodup.filter _, ?_, by simp, ?_, ?_, by simp⟩
  · intro t ht
    exact hseed.mem_iff.mp (List.mem_of_mem_filter ht)
  · intro c _
    simp [indeg0]
  · intro c hc _
    rw [List.mem_filter]
    constructor
    · rintro ⟨_, h⟩
      simpa using h
    · intro h
      exact ⟨hseed.mem_iff.mpr hc, by simpa using h⟩

/-- If the loop is stuck (empty queue) with `ordered` incomplete, every
unordered table keeps an unordered parent; under acyclicity this forces
`ordered` to contain every table. -/
lemma acyclic_stuck_complete {schema : Schema} {ordered : List String}
    (hacyc : Acyclic schema)
    (hstuck : ∀ c, c ∈ tablesOf schema → c ∉ ordered →
      ∃ p, Edge schema p c ∧ p ∉ ordered) :
    ∀ t ∈ tablesOf schema, t ∈ ordered := by
  intro t ht
  revert ht
  have hacc : Acc (Edge schema) t := hacyc.apply t
  induction hacc with
  | intro x _ ih =>
    intro hx
    by_contra hxo
    obtain ⟨p, hpe, hpo⟩ := hstuck x hx hxo
    exact hpo (ih p hpe hpe.parent_mem_tables)

/-- Main property of the Kahn loop, by induction along the fuel: the result
is a duplicate-free topologically ordered list of tables, complete whenever
the graph is acyclic. -/
lemma kahnLoop_main {schema : Schema} {adj : String → List String}
    (hadj : AdjValid schema adj) (hTab : (tablesOf schema).Nodup) :
    ∀ (fuel : Nat) (queue : List String) (indeg : String → Int) (ordered : List String),
      KahnInv schema queue indeg ordered →
      fuel + ordered.length = (tablesOf schema).length →
      (kahnLoop adj fuel queue indeg ordered).Nodup ∧
      (∀ t ∈ kahnLoop adj fuel queue indeg ordered, t ∈ tablesOf schema) ∧
      (∀ p c, Edge schema p c → c ∈ kahnLoop adj fuel queue indeg ordered →
        List.Sublist [p, c] (kahnLoop adj fuel queue indeg ordered)) ∧
      (Acyclic schema → ∀ t ∈ tablesOf schema, t ∈ kahnLoop adj fuel queue indeg ordered) := by
  intro fuel
  induction fuel with
  | zero =>
    intro queue indeg ordered inv hfuel
    have hres : kahnLoop adj 0 queue indeg ordered = ordered := by
      cases queue <;> rfl
    rw [hres]
    have hlen : (tablesOf schema).length ≤ ordered.length := by omega
    have hperm : ordered.Perm (tablesOf schema) :=
      (List.subperm_of_subset inv.ordered_nodup
        (fun t ht => inv.ordered_sub t ht)).perm_of_length_le hlen
    exact ⟨inv.ordered_nodup, inv.ordered_sub, inv.topo,
      fun _ t ht => hperm.mem_iff.mpr ht⟩
  | succ fuel ih =>
    intro queue indeg ordered inv hfuel
    cases queue with
    | nil =>
      have hres : kahnLoop adj (fuel + 1) [] indeg ordered = ordered := rfl
      rw [hres]
      refine ⟨inv.ordered_nodup, inv.ordered_sub, inv.topo, ?_⟩
      intro hacyc
      apply acyclic_stuck_complete hacyc
      intro c hc hco
      have hne : indeg c ≠ 0 := by
        intro h0
        exact (List.not_mem_nil c) ((inv.ready_iff c hc hco).mpr h0)
      have hie := inv.indeg_eq c hc
      have hlen : ((parentsOf schema c).filter (fun p => ! ordered.contains p)).length ≠ 0 := by
        intro h
        rw [h] at hie
        exact hne (by simpa using hie)
      have hnil : (parentsOf schema c).filter (fun p => ! ordered.contains p) ≠ [] := by
        intro h
        rw [h] at hlen
        exact hlen rfl
      obtain ⟨p, hp⟩ := List.exists_mem_of_ne_nil _ hnil
      rw [List.mem_filter] at hp
      have hp2 := hp.2
      simp at hp2
      exact ⟨p, hp.1, hp2⟩
    | cons node rest =>
      have hstep := inv.step hadj
      have hres : kahnLoop adj (fuel + 1) (node :: rest) indeg ordered =
          kahnLoop adj fuel (processChildren (adj node) indeg rest).2
            (processChildren (adj node) indeg rest).1 (ordered ++ [node]) := rfl
      rw [hres]
      exact ih _ _ _ hstep (by simp; omega)

/-- The canonical children enumeration is a valid set-iteration choice. -/
lemma adjOf_valid (schema : Schema) (hTab : (tablesOf schema).Nodup) :
    AdjValid schema (adjOf schema) := by
  intro p
  constructor
  · exact hTab.filter _
  · intro c
    unfold adjOf
    rw [List.mem_filter]
    constructor
    · rintro ⟨_, h⟩
      simpa using h
    · intro h
      exact ⟨h.mem_tables, by simpa using h⟩

/-- C1: for every schema whose foreign-key graph (self-references and
references to absent tables dropped) is acyclic, `get_insertion_order`
returns a list containing every table exactly once in which every referenced
parent appears strictly before every table referencing it — for every
set-iteration order of the table set and of the children sets. -/
theorem C1_acyclic_topological_order (schema : Schema) (seed : List String)
    (adj : String → List String)
    (hTab : (tablesOf schema).Nodup) (hseed : seed.Perm (tablesOf schema))
    (hadj : AdjValid schema adj) (hacyc : Acyclic schema) :
    ∃ l, get_insertion_order schema seed adj = Except.ok l ∧
      l.Perm (tablesOf schema) ∧
      ∀ p c, Edge schema p c → List.Sublist [p, c] l := by
  have hinv := kahn_initial_inv hTab hseed
  have hmain := kahnLoop_main hadj hTab (tablesOf schema).length
    (seed.filter (fun t => indeg0 schema t == 0)) (indeg0 schema) [] hinv (by simp)
  obtain ⟨hnd, hsub, htopo, hcomp⟩ := hmain
  set r := kahnLoop adj (tablesOf schema).length
    (seed.filter (fun t => indeg0 schema t == 0)) (indeg0 schema) [] with hr
  have hperm : r.Perm (tablesOf schema) := by
    have h1 := List.subperm_of_subset hnd (fun t ht => hsub t ht)
    have h2 := List.subperm_of_subset hTab (fun t ht => hcomp hacyc t ht)
    exact h1.antisymm h2
  refine ⟨r, ?_, hperm, ?_⟩
  · show (if r.length = (tablesOf schema).length then Except.ok r
      else Except.error ((tablesOf schema).filter (fun t => ! r.contains t))) = Except.ok r
    rw [if_pos hperm.length_eq]
  · intro p c hpc
    exact htopo p c hpc (hperm.mem_iff.mpr hpc.mem_tables)

/-! Concrete two-table witness schema: `B` has a foreign key to `A`. -/

def colInt : ColumnInfo := ⟨"integer", false, none, false, false, false⟩

def schemaAB : Schema :=
  [("A", ⟨[("id", colInt)], [], []⟩),
   ("B", ⟨[("id", colInt), ("a_id", colInt)], [("a_id", ⟨"A", "id"⟩)], []⟩)]

lemma schemaAB_acyclic : Acyclic schemaAB := by
  have haccA : Acc (Edge schemaAB) "A" := by
    constructor
    intro p hp
    have hmem : p ∈ parentsOf schemaAB "A" := hp
    rw [show parentsOf schemaAB "A" = [] by decide] at hmem
    cases hmem
  constructor
  intro v
  constructor
  intro p hp
  have hvt := hp.mem_tables
  have hv : v = "A" ∨ v = "B" := by simpa [tablesOf, schemaAB] using hvt
  rcases hv with h | h
  · subst h
    have hmem : p ∈ parentsOf schemaAB "A" := hp
    rw [show parentsOf schemaAB "A" = [] by decide] at hmem
    cases hmem
  · subst h
    have hmem : p ∈ parentsOf schemaAB "B" := hp
    rw [show parentsOf schemaAB "B" = ["A"] by decide] at hmem
    have hpa : p = "A" := by simpa using hmem
    subst hpa
    exact haccA

theorem C1_acyclic_topological_order_witness :
    ((tablesOf schemaAB).Nodup ∧ (["A", "B"] : List String).Perm (tablesOf schemaAB) ∧
      AdjValid schemaAB (adjOf schemaAB) ∧ Acyclic schemaAB) ∧
    ∃ l, get_insertion_order schemaAB ["A", "B"] (adjOf schemaAB) = Except.ok l ∧
      l.Perm (tablesOf schemaAB) ∧
      ∀ p c, Edge schemaAB p c → List.Sublist [p, c] l := by
  have h1 : (tablesOf schemaAB).Nodup := by decide
  have h2 : (["A", "B"] : List String).Perm (tablesOf schemaAB) := by decide
  have h3 := adjOf_valid schemaAB h1
  have h4 := schemaAB_acyclic
  exact ⟨⟨h1, h2, h3, h4⟩,
    C1_acyclic_topological_order schemaAB ["A", "B"] (adjOf schemaAB) h1 h2 h3 h4⟩

/-! ## Cycles and the failure branch (claim C4) -/

lemma chain_in_edge {R : String → String → Prop} :
    ∀ (l : List String) (a : String), List.Chain R a l →
      ∀ t ∈ l, ∃ p ∈ a :: l, R p t := by
  intro l
  induction l with
  | nil => intro a _ t ht; cases ht
  | cons b l2 ih =>
    intro a hch t ht
    rcases List.chain_cons.mp hch with ⟨hab, hch2⟩
    rcases List.mem_cons.mp ht with h | h
    · subst h
      exact ⟨a, List.mem_cons_self _ _, hab⟩
    · obtain ⟨p, hp, hpt⟩ := ih b hch2 t h
      exact ⟨p, List.mem_cons_of_mem _ hp, hpt⟩

lemma chain_out_edge {R : String → String → Prop} :
    ∀ (l : List String) (a b : String), List.Chain R a (l ++ [b]) →
      ∀ t ∈ a :: l, ∃ u ∈ a :: (l ++ [b]), R t u := by
  intro l
  induction l with
  | nil =>
    intro a b hch t ht
    rcases List.chain_cons.mp hch with ⟨hab, _⟩
    rcases List.mem_cons.mp ht with h | h
    · subst h
      exact ⟨b, by simp, hab⟩
    · cases h
  | cons c l2 ih =>
    intro a b hch t ht
    rcases List.chain_cons.mp hch with ⟨hac, hch2⟩
    rcases List.mem_cons.mp ht with h | h
    · subst h
      exact ⟨c, by simp, hac⟩
    · obtain ⟨u, hu, htu⟩ := ih c b hch2 t h
      exact ⟨u, List.mem_cons_of_mem _ hu, htu⟩

/-- Every member of a cycle has an in-edge from within the cycle. -/
lemma cycle_in_edge {schema : Schema} {l : List String} (hcyc : IsCycle schema l) :
    ∀ t ∈ l, ∃ p ∈ l, Edge schema p t := by
  cases l with
  | nil => exact False.elim hcyc
  | cons v rest =>
    have hchain : List.Chain (Edge schema) v (rest ++ [v]) := hcyc
    intro t ht
    have hmem : t ∈ rest ++ [v] := by
      rcases List.mem_cons.mp ht with h | h
      · subst h; simp
      · exact List.mem_append.mpr (Or.inl h)
    obtain ⟨p, hp, hpe⟩ := chain_in_edge _ _ hchain t hmem
    refine ⟨p, ?_, hpe⟩
    rcases List.mem_cons.mp hp with h | h
    · subst h; exact List.mem_cons_self _ _
    · rcases List.mem_append.mp h with h2 | h2
      · exact List.mem_cons_of_mem _ h2
      · simp at h2; subst h2; exact List.mem_cons_self _ _

/-- Every member of a cycle has an out-edge into the cycle. -/
lemma cycle_out_edge {schema : Schema} {l : List String} (hcyc : IsCycle schema l) :
    ∀ t ∈ l, ∃ u ∈ l, Edge schema t u := by
  cases l with
  | nil => exact False.elim hcyc
  | cons v rest =>
    have hchain : List.Chain (Edge schema) v (rest ++ [v]) := hcyc
    intro t ht
    obtain ⟨u, hu, htu⟩ := chain_out_edge rest v v hchain t ht
    refine ⟨u, ?_, htu⟩
    rcases List.mem_cons.mp hu with h | h
    · subst h; exact List.mem_cons_self _ _
    · rcases List.mem_append.mp h with h2 | h2
      · exact List.mem_cons_of_mem _ h2
      · simp at h2; subst h2; exact List.mem_cons_self _ _

lemma pair_sublist_indexOf {r : List String} {a b : String} (hnd : r.Nodup)
    (h : List.Sublist [a, b] r) : r.indexOf a < r.indexOf b := by
  induction r with
  | nil => cases h
  | cons x r2 ih =>
    cases h with
    | cons _ h2 =>
      have ha : a ∈ r2 := h2.subset (by simp)
      have hb : b ∈ r2 := h2.subset (by simp)
      have hxr : x ∉ r2 := (List.nodup_cons.mp hnd).1
      have hxa : a ≠ x := fun he => hxr (he ▸ ha)
      have hxb : b ≠ x := fun he => hxr (he ▸ hb)
      rw [List.indexOf_cons_ne _ (Ne.symm hxa), List.indexOf_cons_ne _ (Ne.symm hxb)]
      have := ih (List.nodup_cons.mp hnd).2 h2
      omega
    | cons₂ _ h2 =>
      have hb : b ∈ r2 := h2.subset (by simp)
      have hxr : a ∉ r2 := (List.nodup_cons.mp hnd).1
      have hab : a ≠ b := fun he => hxr (he ▸ hb)
      rw [List.indexOf_cons_self, List.indexOf_cons_ne _ hab]
      omega

/-- No member of a cycle can occur in a duplicate-free list in which every
table appears after all of its parents. -/
lemma cycle_not_mem_topo {schema : Schema} {r : List String} (hnd : r.Nodup)
    (htopo : ∀ p c, Edge schema p c → c ∈ r → List.Sublist [p, c] r)
    {l : List String} (hcyc : IsCycle schema l) :
    ∀ t ∈ l, t ∉ r := by
  have main : ∀ n t, t ∈ l → t ∈ r → r.indexOf t = n → False := by
    intro n
    induction n using Nat.strong_induction_on with
    | _ n ih =>
      intro t htl htr hidx
      obtain ⟨p, hpl, hpe⟩ := cycle_in_edge hcyc t htl
      have hsub := htopo p t hpe htr
      have hlt := pair_sublist_indexOf hnd hsub
      exact ih (r.indexOf p) (hidx ▸ hlt) p hpl (hsub.subset (by simp)) rfl
  intro t htl htr
  exact main (r.indexOf t) t htl htr rfl

/-- C4 (amended): a schema containing a cycle makes `get_insertion_order`
fail, and the reported set contains every cycle member (it is the full set
of tables that could not be ordered, which may also include tables that
merely depend on the cycle). -/
theorem C4_cycle_failure_reports_cycle_members (schema : Schema) (seed : List String)
    (adj : String → List String) (l : List String)
    (hTab : (tablesOf schema).Nodup) (hseed : seed.Perm (tablesOf schema))
    (hadj : AdjValid schema adj) (hcyc : IsCycle schema l) :
    ∃ err, get_insertion_order schema seed adj = Except.error err ∧
      ∀ t ∈ l, t ∈ err := by
  have hinv := kahn_initial_inv hTab hseed
  have hmain := kahnLoop_main hadj hTab (tablesOf schema).length
    (seed.filter (fun t => indeg0 schema t == 0)) (indeg0 schema) [] hinv (by simp)
  obtain ⟨hnd, hsub, htopo, _⟩ := hmain
  set r := kahnLoop adj (tablesOf schema).length
    (seed.filter (fun t => indeg0 schema t == 0)) (indeg0 schema) [] with hr
  have hnotmem : ∀ t ∈ l, t ∉ r := cycle_not_mem_topo hnd htopo hcyc
  have hmem_tab : ∀ t ∈ l, t ∈ tablesOf schema := by
    intro t htl
    obtain ⟨p, _, hpe⟩ := cycle_in_edge hcyc t htl
    exact hpe.mem_tables
  have hlnil : l ≠ [] := by
    intro h
    rw [h] at hcyc
    exact False.elim hcyc
  obtain ⟨t0, ht0⟩ := List.exists_mem_of_ne_nil l hlnil
  have hlen : r.length ≠ (tablesOf schema).length := by
    intro heq
    have hperm : r.Perm (tablesOf schema) :=
      (List.subperm_of_subset hnd (fun t ht => hsub t ht)).perm_of_length_le (le_of_eq heq.symm)
    exact hnotmem t0 ht0 (hperm.mem_iff.mpr (hmem_tab t0 ht0))
  refine ⟨(tablesOf schema).filter (fun t => ! r.contains t), ?_, ?_⟩
  · show (if r.length = (tablesOf schema).length then Except.ok r
      else Except.error ((tablesOf schema).filter (fun t => ! r.contains t))) =
      Except.error ((tablesOf schema).filter (fun t => ! r.contains t))
    rw [if_neg hlen]
  · intro t htl
    rw [List.mem_filter]
    exact ⟨hmem_tab t htl, by simpa using hnotmem t htl⟩

/-! Concrete schemas used to witness and refute the ordering claims. -/

/-- Mutual cycle between `A` and `B`, plus a table `C` referencing `A`
(`C` is not on any cycle). -/
def schemaCyc3 : Schema :=
  [("A", ⟨[("id", colInt), ("b_id", colInt)], [("b_id", ⟨"B", "id"⟩)], []⟩),
   ("B", ⟨[("id", colInt), ("a_id", colInt)], [("a_id", ⟨"A", "id"⟩)], []⟩),
   ("C", ⟨[("id", colInt), ("a_id", colInt)], [("a_id", ⟨"A", "id"⟩)], []⟩)]

/-- C4 counterexample: `schemaCyc3` has a cycle among the two tables
`A`, `B`, yet the reported set is `A, B, C` — it also names `C`, a table on
no cycle, so the error does not name exactly the cycle participants. -/
theorem C4_counterexample :
    IsCycle schemaCyc3 ["A", "B"] ∧
    get_insertion_order schemaCyc3 ["A", "B", "C"] (adjOf schemaCyc3) =
      Except.error ["A", "B", "C"] ∧
    "C" ∈ (["A", "B", "C"] : List String) ∧
    ¬ ∃ l, IsCycle schemaCyc3 l ∧ "C" ∈ l := by
  refine ⟨by decide, by decide, by decide, ?_⟩
  rintro ⟨l, hcyc, hC⟩
  obtain ⟨u, _, hE⟩ := cycle_out_edge hcyc "C" hC
  have hu := hE.mem_tables
  have hu3 : u = "A" ∨ u = "B" ∨ u = "C" := by
    simpa [tablesOf, schemaCyc3] using hu
  have hEp : ("C" : String) ∈ parentsOf schemaCyc3 u := hE
  rcases hu3 with h | h | h <;> subst h <;> revert hEp <;> decide

/-- Mutual two-table cycle used to witness the amended C4. -/
def schemaCycAB : Schema :=
  [("A", ⟨[("id", colInt), ("b_id", colInt)], [("b_id", ⟨"B", "id"⟩)], []⟩),
   ("B", ⟨[("id", colInt), ("a_id", colInt)], [("a_id", ⟨"A", "id"⟩)], []⟩)]

theorem C4_cycle_failure_reports_cycle_members_witness :
    ((tablesOf schemaCycAB).Nodup ∧
      (["A", "B"] : List String).Perm (tablesOf schemaCycAB) ∧
      AdjValid schemaCycAB (adjOf schemaCycAB) ∧ IsCycle schemaCycAB ["A", "B"]) ∧
    ∃ err, get_insertion_order schemaCycAB ["A", "B"] (adjOf schemaCycAB) =
        Except.error err ∧ ∀ t ∈ ["A", "B"], t ∈ err := by
  have h1 : (tablesOf schemaCycAB).Nodup := by decide
  have h2 : (["A", "B"] : List String).Perm (tablesOf schemaCycAB) := by decide
  have h3 := adjOf_valid schemaCycAB h1
  have h4 : IsCycle schemaCycAB ["A", "B"] := by decide
  exact ⟨⟨h1, h2, h3, h4⟩,
    C4_cycle_failure_reports_cycle_members schemaCycAB ["A", "B"] (adjOf schemaCycAB)
      ["A", "B"] h1 h2 h3 h4⟩

/-! ## Tie-break order (claim C8) -/

/-- Two independent tables: both are ready immediately. -/
def schemaInd : Schema :=
  [("A", ⟨[("id", colInt)], [], []⟩),
   ("B", ⟨[("id", colInt)], [], []⟩)]

/-- C8 counterexample: both `[A, B]` and `[B, A]` are iteration orders of
the same Python table set, and the returned order follows the iteration
order — it is not sorted by name and differs between the two runs, so the
output is not deterministic across runs on equal schemas. -/
theorem C8_counterexample :
    (["A", "B"] : List String).Perm (tablesOf schemaInd) ∧
    (["B", "A"] : List String).Perm (tablesOf schemaInd) ∧
    get_insertion_order schemaInd ["A", "B"] (adjOf schemaInd) = Except.ok ["A", "B"] ∧
    get_insertion_order schemaInd ["B", "A"] (adjOf schemaInd) = Except.ok ["B", "A"] ∧
    (["A", "B"] : List String) ≠ ["B", "A"] := by
  decide

lemma parentsOf_eq_nil_of_no_fks {schema : Schema}
    (h : ∀ p ∈ schema, p.2.foreign_keys = []) (t : String) :
    parentsOf schema t = [] := by
  unfold parentsOf lookupTable
  cases hf : schema.find? (fun p => p.1 == t) with
  | none => rfl
  | some q =>
    have hq := List.mem_of_find?_eq_some hf
    simp [depsOf, h q hq]

lemma kahnLoop_no_children {adj : String → List String} (hadj : ∀ p, adj p = []) :
    ∀ (queue : List String) (fuel : Nat) (indeg : String → Int) (ordered : List String),
      queue.length ≤ fuel →
      kahnLoop adj fuel queue indeg ordered = ordered ++ queue := by
  intro queue
  induction queue with
  | nil => intro fuel indeg ordered _; cases fuel <;> simp [kahnLoop]
  | cons x q2 ih =>
    intro fuel indeg ordered hlen
    cases fuel with
    | zero => simp at hlen
    | succ f =>
      show kahnLoop adj f (processChildren (adj x) indeg q2).2
        (processChildren (adj x) indeg q2).1 (ordered ++ [x]) = ordered ++ x :: q2
      rw [hadj x]
      show kahnLoop adj f q2 indeg (ordered ++ [x]) = ordered ++ x :: q2
      rw [ih f indeg (ordered ++ [x]) (by simpa using hlen)]
      simp

/-- C8 (amended): simultaneously-ready tables are emitted in the iteration
order of the in-memory table set, which the algorithm does not sort; on a
schema with no foreign-key edges the output is exactly the set-iteration
order. -/
theorem C8_output_follows_set_iteration_order (schema : Schema) (seed : List String)
    (adj : String → List String)
    (hTab : (tablesOf schema).Nodup) (hseed : seed.Perm (tablesOf schema))
    (hadj : AdjValid schema adj)
    (hnoedge : ∀ t, parentsOf schema t = []) :
    get_insertion_order schema seed adj = Except.ok seed := by
  have hadjnil : ∀ p, adj p = [] := by
    intro p
    apply List.eq_nil_iff_forall_not_mem.mpr
    intro c hc
    have he : Edge schema p c := ((hadj p).2 c).mp hc
    have : p ∈ parentsOf schema c := he
    rw [hnoedge c] at this
    cases this
  have hq0 : seed.filter (fun t => indeg0 schema t == 0) = seed := by
    apply List.filter_eq_self.mpr
    intro t _
    simp [indeg0, hnoedge t]
  have hlen : seed.length = (tablesOf schema).length := hseed.length_eq
  have hrun := kahnLoop_no_children hadjnil seed (tablesOf schema).length
    (indeg0 schema) [] (le_of_eq hlen)
  show (if (kahnLoop adj (tablesOf schema).length
      (seed.filter (fun t => indeg0 schema t == 0)) (indeg0 schema) []).length =
        (tablesOf schema).length then _ else _) = _
  rw [hq0, hrun]
  simp only [List.nil_append]
  rw [if_pos hlen]

theorem C8_output_follows_set_iteration_order_witness :
    ((tablesOf schemaInd).Nodup ∧ (["B", "A"] : List String).Perm (tablesOf schemaInd) ∧
      AdjValid schemaInd (adjOf schemaInd) ∧ ∀ t, parentsOf schemaInd t = []) ∧
    get_insertion_order schemaInd ["B", "A"] (adjOf schemaInd) = Except.ok ["B", "A"] := by
  have h1 : (tablesOf schemaInd).Nodup := by decide
  have h2 : (["B", "A"] : List String).Perm (tablesOf schemaInd) := by decide
  have h3 := adjOf_valid schemaInd h1
  have h4 : ∀ t, parentsOf schemaInd t = [] :=
    parentsOf_eq_nil_of_no_fks (by decide)
  exact ⟨⟨h1, h2, h3, h4⟩,
    C8_output_follows_set_iteration_order schemaInd ["B", "A"] (adjOf schemaInd) h1 h2 h3 h4⟩

/-! ## Data generator (src/src/data_generator.py)

Python runtime values appearing in generated rows and configuration files. -/

inductive Value where
  | null
  | int (n : Int)
  | float (q : Rat)
  | str (s : String)
  | bool (b : Bool)
  | time (n : Nat)
deriving DecidableEq

abbrev Row := List (String × Value)

/-- One bundle of random draws, enough for any single library call made
while producing one candidate value.  The generator is embedded against an
explicit stream of these (`GenState.rng`), and the theorems quantify over
every stream, which covers every behaviour of the `random`/`faker`
libraries. -/
structure Oracle where
  nullRoll : Bool      -- outcome of the test random.random() < 0.1
  choiceRaw : Nat      -- index source for random.choice
  intRaw : Nat         -- draw for faker.random_int
  floatRaw : Nat       -- draw for faker.pyfloat
  email : String       -- faker.email()
  personName : String  -- faker.name()
  textRaw : String     -- text source for faker.text(max_nb_chars=50)
  boolVal : Bool       -- faker.boolean()
  timeRaw : Nat        -- faker.date_time_between(start_date=-1y, end_date=now)
  word : String        -- faker.word()
  suffixRaw : Nat      -- draw for random.randint(1000, 9999)

/-- `random.choice(xs)`: an element of the nonempty list `xs`. -/
def randomChoice (xs : List Value) (raw : Nat) : Value :=
  xs.getD (raw % xs.length) Value.null

/-- `faker.random_int(min=lo, max=hi)`: an integer in `[lo, hi]` (library
contract; every call site establishes `lo ≤ hi` first). -/
def fakerRandomInt (lo hi : Int) (raw : Nat) : Int :=
  lo + (raw : Int) % (hi - lo + 1)

/-- `faker.pyfloat(right_digits=2, min_value=lo, max_value=hi)`: a value
with two decimal digits in `[lo, hi]` (library contract; call sites
establish `lo ≤ hi` first). -/
def fakerPyfloat (lo hi : Rat) (raw : Nat) : Rat :=
  lo + ((raw % (((hi - lo) * 100).floor.toNat + 1) : Nat) : Rat) / 100

/-- `faker.text(max_nb_chars=n)`: freeform text of at most `n` characters. -/
def fakerText (n : Nat) (raw : String) : String :=
  String.mk (raw.toList.take n)

/-- `random.randint(1000, 9999)`. -/
def randint4 (raw : Nat) : Nat := 1000 + raw % 9000

/-- Python str() / f-string rendering of a value. -/
def pyStr : Value → String
  | Value.null => "None"
  | Value.int n => toString n
  | Value.float q => toString q
  | Value.str s => s
  | Value.bool b => if b then "True" else "False"
  | Value.time n => toString n

/-- `isinstance(v, int)` — in Python a bool is a subclass of int. -/
def isPyInt : Value → Bool
  | Value.int _ => true
  | Value.bool _ => true
  | _ => false

/-- `isinstance(v, (int, float))`. -/
def isPyNum : Value → Bool
  | Value.int _ => true
  | Value.bool _ => true
  | Value.float _ => true
  | _ => false

/-- Character-level prefix test (structural, so that the kernel can
evaluate it on concrete strings). -/
def listPrefixEq : List Char → List Char → Bool
  | [], _ => true
  | _ :: _, [] => false
  | a :: as, b :: bs => a == b && listPrefixEq as bs

/-- Lower-casing through the character list (`str.lower()`). -/
def pyLower (s : String) : String :=
  String.mk (s.toList.map Char.toLower)

/-- Python's `str.startswith(pre)`. -/
def pyStartsWith (s pre : String) : Bool :=
  listPrefixEq pre.toList s.toList

/-- Python's substring test `pat in s`. -/
def strContains (s pat : String) : Bool :=
  go pat.toList s.toList
where
  go (needle : List Char) : List Char → Bool
    | [] => needle.isEmpty
    | c :: rest => listPrefixEq needle (c :: rest) || go needle rest

/-- Python `int()` conversion of a number: truncation toward zero. -/
def intOfRat (q : Rat) : Int :=
  if 0 ≤ q then Int.floor q else Int.ceil q

/-- Per-column user configuration (config.ColumnConfig). -/
structure ColumnConfig where
  name : String
  min_value : Option Rat := none
  max_value : Option Rat := none
  values : Option (List Value) := none
deriving DecidableEq

/-- The guard `if col_cfg and col_cfg.values:` — a missing config, a missing
values field and an empty values list are all falsy. -/
def cfgActiveValues : Option ColumnConfig → Option (List Value)
  | none => none
  | some cfg =>
    match cfg.values with
    | none => none
    | some [] => none
    | some vs => some vs

/-- `DataGenerator._generate_value(col_info, col_cfg)`, consuming one oracle.
Note on the `char`/`text` branch: the source reads
`col_info.get('name', '')`, but `extract_schema` never stores a `name` key
in the per-column dictionary, so the lookup always yields the empty string;
the translation therefore uses the empty string there. -/
def generate_value (col_info : ColumnInfo) (col_cfg : Option ColumnConfig) (o : Oracle) :
    Except String Value :=
  let dtype := pyLower col_info.type
  if col_info.is_nullable && o.nullRoll then Except.ok Value.null
  else
    match cfgActiveValues col_cfg with
    | some allowed_values =>
      let val := randomChoice allowed_values o.choiceRaw
      if strContains dtype "int" && !(isPyInt val) then
        Except.error ("Type Mismatch: column is type " ++ dtype ++
          " but config provided value " ++ pyStr val)
      else if (strContains dtype "numeric" || strContains dtype "decimal" ||
          strContains dtype "float") && !(isPyNum val) then
        Except.error ("Type Mismatch: column is type " ++ dtype ++
          " but config provided value " ++ pyStr val)
      else Except.ok val
    | none =>
      let min_val := match col_cfg with | none => none | some cfg => cfg.min_value
      let max_val := match col_cfg with | none => none | some cfg => cfg.max_value
      if (min_val.isSome || max_val.isSome) &&
          !(strContains dtype "int" || strContains dtype "numeric" ||
            strContains dtype "decimal" || strContains dtype "double" ||
            strContains dtype "float") then
        Except.error ("Configuration Error: min_value/max_value provided for column of type "
          ++ dtype ++ ". Ranges only supported for numeric types.")
      else if strContains dtype "json" then Except.ok (Value.str "\x7b\x7d")
      else if strContains dtype "int" then
        let effective_min := match min_val with | some q => intOfRat q | none => 1
        let effective_max0 := match max_val with | some q => intOfRat q | none => 10000
        let effective_max :=
          if effective_min > effective_max0 then effective_min else effective_max0
        Except.ok (Value.int (fakerRandomInt effective_min effective_max o.intRaw))
      else if strContains dtype "char" || strContains dtype "text" then
        let cname := pyLower ""
        if strContains cname "email" then Except.ok (Value.str o.email)
        else if strContains cname "name" then Except.ok (Value.str o.personName)
        else Except.ok (Value.str (fakerText 50 o.textRaw))
      else if strContains dtype "bool" then Except.ok (Value.bool o.boolVal)
      else if strContains dtype "date" || strContains dtype "time" then
        Except.ok (Value.time o.timeRaw)
      else if strContains dtype "numeric" || strContains dtype "decimal" ||
          strContains dtype "double" then
        let effective_min := match min_val with | some q => q | none => 0
        let effective_max0 := match max_val with | some q => q | none => 1000
        let effective_max :=
          if effective_min > effective_max0 then effective_min else effective_max0
        Except.ok (Value.float (fakerPyfloat effective_min effective_max o.floatRaw))
      else Except.ok (Value.str o.word)

/-- Mutable state of a `DataGenerator` plus the random stream: the
uniqueness tracker `unique_tracker[table][column]` (a set, modelled as the
list of recorded values) and the position in the oracle stream. -/
structure GenState where
  tracker : String → String → List Value
  rng : Nat → Oracle
  k : Nat

def nextOracle (s : GenState) : Oracle × GenState :=
  (s.rng s.k, { s with k := s.k + 1 })

def trackerAdd (s : GenState) (table col : String) (v : Value) : GenState :=
  { s with tracker := fun t c =>
      if t = table ∧ c = col then v :: s.tracker t c else s.tracker t c }

/-- The skip test: identity columns and columns whose default expression is
a nonempty string starting with `nextval`. -/
def skipColumn (ci : ColumnInfo) : Bool :=
  ci.is_identity ||
    (match ci.default with
     | some d => !(d == "") && pyStartsWith d "nextval"
     | none => false)

/-- Association-list lookup (Python dict access). -/
def lookup? {α : Type} (l : List (String × α)) (key : String) : Option α :=
  (l.find? (fun p => p.1 == key)).map Prod.snd

/-- Result of the 10-attempt uniqueness loop of `generate_row`: a value was
assigned (`row[col_name] = val; break`), the attempts were exhausted
(`for ... else:` reached, carrying the last generated value), or
`_generate_value` raised. -/
inductive AttemptOutcome where
  | assigned (v : Value) (s : GenState)
  | exhausted (last : Value) (s : GenState)
  | failed (e : String) (s : GenState)

/-- The loop `for attempt in range(10): ...` of `generate_row`. -/
def attemptLoop (table col : String) (ci : ColumnInfo) (cfg : Option ColumnConfig)
    (is_unique : Bool) : Nat → Value → GenState → AttemptOutcome
  | 0, last, s => AttemptOutcome.exhausted last s
  | fuel + 1, _, s =>
    let oo := nextOracle s
    match generate_value ci cfg oo.1 with
    | Except.error e => AttemptOutcome.failed e oo.2
    | Except.ok val =>
      if is_unique && !(val == Value.null) then
        if (oo.2.tracker table col).contains val then
          attemptLoop table col ci cfg is_unique fuel val oo.2
        else
          AttemptOutcome.assigned val (trackerAdd oo.2 table col val)
      else
        AttemptOutcome.assigned val oo.2

/-- The column loop of `generate_row`, threading the row under construction
and the generator state. -/
def genColumns (table : String) (fks : List (String × FKRef))
    (unique_cols : List String) (fkPools : String → List Value)
    (cfgs : String → Option ColumnConfig) :
    List (String × ColumnInfo) → Row → GenState →
    GenState × Except String Row
  | [], row, s => (s, Except.ok row)
  | (col_name, col_info) :: rest, row, s =>
    if skipColumn col_info then
      genColumns table fks unique_cols fkPools cfgs rest row s
    else
      match lookup? fks col_name with
      | some fk =>
        let ref_table := fk.references_table
        let possible_ids := fkPools ref_table
        if possible_ids.isEmpty then
          if col_info.is_nullable then
            genColumns table fks unique_cols fkPools cfgs rest
              (row ++ [(col_name, Value.null)]) s
          else
            (s, Except.error ("Cannot generate data for " ++ table ++ "." ++ col_name ++
              ": No records found in parent table " ++ ref_table))
        else
          let oo := nextOracle s
          genColumns table fks unique_cols fkPools cfgs rest
            (row ++ [(col_name, randomChoice possible_ids oo.1.choiceRaw)]) oo.2
      | none =>
        let is_unique := unique_cols.contains col_name || col_info.is_unique
        match attemptLoop table col_name col_info (cfgs col_name) is_unique 10 Value.null s with
        | AttemptOutcome.assigned v s1 =>
          genColumns table fks unique_cols fkPools cfgs rest (row ++ [(col_name, v)]) s1
        | AttemptOutcome.failed e s1 => (s1, Except.error e)
        | AttemptOutcome.exhausted last s1 =>
          if is_unique then
            if strContains (pyLower col_info.type) "text" ||
                strContains (pyLower col_info.type) "char" then
              let oo := nextOracle s1
              let v := Value.str (pyStr last ++ "_" ++ toString (randint4 oo.1.suffixRaw))
              genColumns table fks unique_cols fkPools cfgs rest (row ++ [(col_name, v)])
                (trackerAdd oo.2 table col_name v)
            else
              (s1, Except.error ("Could not generate unique value for " ++ table ++ "." ++
                col_name ++ " after 10 attempts"))
          else
            -- unreachable: a non-unique column is assigned on its first attempt;
            -- Python would fall through leaving the column unassigned
            genColumns table fks unique_cols fkPools cfgs rest row s1

/-- `DataGenerator.generate_row(table_name, valid_foreign_keys, column_configs)`.
Returns the updated state (tracker mutations persist even when the row
fails) together with the generated row or the raised `ValueError`. -/
def generate_row (schema : Schema) (s : GenState) (table_name : String)
    (valid_foreign_keys : String → List Value)
    (column_configs : String → Option ColumnConfig) :
    GenState × Except String Row :=
  match lookupTable schema table_name with
  | none => (s, Except.error ("KeyError: " ++ table_name))
  | some ts =>
    genColumns table_name ts.foreign_keys ts.unique_columns valid_foreign_keys
      column_configs ts.columns [] s

/-! ## Library contracts -/

lemma randomChoice_mem {xs : List Value} (h : xs ≠ []) (raw : Nat) :
    randomChoice xs raw ∈ xs := by
  unfold randomChoice
  have hpos : 0 < xs.length := List.length_pos.mpr h
  have hlt : raw % xs.length < xs.length := Nat.mod_lt _ hpos
  rw [List.getD_eq_getElem xs Value.null hlt]
  exact List.getElem_mem hlt

lemma fakerRandomInt_bounds {lo hi : Int} (h : lo ≤ hi) (raw : Nat) :
    lo ≤ fakerRandomInt lo hi raw ∧ fakerRandomInt lo hi raw ≤ hi := by
  unfold fakerRandomInt
  have hpos : (0 : Int) < hi - lo + 1 := by omega
  have h1 : 0 ≤ (raw : Int) % (hi - lo + 1) := Int.emod_nonneg _ (by omega)
  have h2 : (raw : Int) % (hi - lo + 1) < hi - lo + 1 := Int.emod_lt_of_pos _ hpos
  omega

lemma fakerRandomInt_self (a : Int) (raw : Nat) : fakerRandomInt a a raw = a := by
  simp [fakerRandomInt]

lemma fakerPyfloat_self (a : Rat) (raw : Nat) : fakerPyfloat a a raw = a := by
  unfold fakerPyfloat
  rw [sub_self, zero_mul]
  have h1 : ((0 : Rat).floor).toNat = 0 := by decide
  rw [h1]
  simp [Nat.mod_one]

lemma fakerText_length (n : Nat) (raw : String) : (fakerText n raw).length ≤ n := by
  unfold fakerText
  show (raw.toList.take n).length ≤ n
  simpa using List.length_take_le n raw.toList

lemma intOfRat_mono {q r : Rat} (h : q ≤ r) : intOfRat q ≤ intOfRat r := by
  unfold intOfRat
  by_cases hq : 0 ≤ q
  · have hr : 0 ≤ r := le_trans hq h
    simp only [hq, hr, if_pos]
    exact Int.floor_le_floor h
  · by_cases hr : 0 ≤ r
    · simp only [hq, hr, if_pos, if_neg, not_false_eq_true]
      have h1 : Int.ceil q ≤ 0 := by
        rw [Int.ceil_le]
        exact_mod_cast le_of_not_le hq
      have h2 : (0 : Int) ≤ Int.floor r := by
        rw [Int.le_floor]
        exact_mod_cast hr
      omega
    · simp only [hq, hr, if_neg, not_false_eq_true]
      exact Int.ceil_le_ceil h

lemma intOfRat_intCast (z : Int) : intOfRat ((z : Rat)) = z := by
  unfold intOfRat
  by_cases hz : 0 ≤ (z : Rat)
  · simp [hz, Int.floor_intCast]
  · simp [hz, Int.ceil_intCast]

lemma cfgActiveValues_eq (cfg : ColumnConfig) :
    cfgActiveValues (some cfg) =
      match cfg.values with
      | none => none
      | some [] => none
      | some (v :: vs) => some (v :: vs) := by
  cases cfg with
  | mk n mn mx vals =>
    cases vals with
    | none => rfl
    | some l => cases l <;> rfl

lemma cfgActiveValues_ne_nil {cfg : ColumnConfig} {vs : List Value}
    (h : cfgActiveValues (some cfg) = some vs) : vs ≠ [] := by
  rw [cfgActiveValues_eq] at h
  cases hv : cfg.values with
  | none => rw [hv] at h; cases h
  | some l =>
    rw [hv] at h
    cases l with
    | nil => cases h
    | cons a l2 =>
      cases h
      simp

/-! ## Claim C7: the column-name dispatch for text columns is dead code -/

/-- A non-nullable text column exactly as produced by the schema parser. -/
def ciTextNN : ColumnInfo := ⟨"character varying", false, none, false, false, false⟩

def schemaEmail : Schema := [("users", ⟨[("email", ciTextNN)], [], []⟩)]

def fkEmpty : String → List Value := fun _ => []

def cfgNone : String → Option ColumnConfig := fun _ => none

def oE : Oracle :=
  ⟨false, 0, 0, 0, "user@example.com", "Jane Roe", "filler text", false, 0, "w", 0⟩

def sE0 : GenState := ⟨fun _ _ => [], fun _ => oE, 0⟩

/-- C7: because `extract_schema` stores no `name` key in the per-column
dictionary, `col_info.get('name', '')` is always the empty string and the
email/name branches of the text family can never fire: every non-nullable
text-family column with no override synthesizes `faker.text(max_nb_chars=50)`
regardless of the column's name.  In particular a column named `email`
receives freeform text, not an email address. -/
theorem C7_name_dispatch_dead :
    (∀ o : Oracle, generate_value ciTextNN none o =
      Except.ok (Value.str (fakerText 50 o.textRaw))) ∧
    (generate_row schemaEmail sE0 "users" fkEmpty cfgNone).2 =
      Except.ok [("email", Value.str "filler text")] ∧
    oE.email = "user@example.com" ∧
    Value.str "filler text" ≠ Value.str oE.email ∧
    (fakerText 50 oE.textRaw).length ≤ 50 := by
  refine ⟨fun o => rfl, by decide, by decide, by decide, ?_⟩
  exact fakerText_length 50 oE.textRaw

/-! ## Claim C10: float-family types pass range validation but fall through -/

/-- C10: a column whose declared type contains "float" but none of the
dispatched families passes the numeric-range validation (the validation
accepts "float"), yet no synthesis branch recognises it, so the value is the
unrecognized-type fallback `faker.word()` — a string the configured range
does not constrain. -/
theorem C10_float_passes_validation_falls_to_word (ci : ColumnInfo) (cfg : ColumnConfig)
    (o : Oracle)
    (hfloat : strContains (pyLower ci.type) "float" = true)
    (hint : strContains (pyLower ci.type) "int" = false)
    (hnum : strContains (pyLower ci.type) "numeric" = false)
    (hdec : strContains (pyLower ci.type) "decimal" = false)
    (hdou : strContains (pyLower ci.type) "double" = false)
    (hjson : strContains (pyLower ci.type) "json" = false)
    (hchar : strContains (pyLower ci.type) "char" = false)
    (htext : strContains (pyLower ci.type) "text" = false)
    (hbool : strContains (pyLower ci.type) "bool" = false)
    (hdate : strContains (pyLower ci.type) "date" = false)
    (htime : strContains (pyLower ci.type) "time" = false)
    (hvals : cfg.values = none)
    (hnn : ci.is_nullable = false) :
    generate_value ci (some cfg) o = Except.ok (Value.str o.word) := by
  unfold generate_value
  have hact : cfgActiveValues (some cfg) = none := by
    rw [cfgActiveValues_eq, hvals]
  rw [hact]
  simp only [hnn, Bool.false_and, if_neg, Bool.false_eq_true, not_false_eq_true,
    hfloat, hint, hnum, hdec, hdou, hjson, hchar, htext, hbool, hdate, htime,
    Bool.or_true, Bool.or_false, Bool.false_or, Bool.not_true, Bool.and_false,
    Bool.true_and, Bool.false_and]

def ciFloat : ColumnInfo := ⟨"float8", false, none, false, false, false⟩

def cfgRange : ColumnConfig := ⟨"score", some 5, some 10, none⟩

def oW : Oracle := ⟨false, 1, 2, 3, "e", "n", "t", false, 0, "generic", 4⟩

theorem C10_float_passes_validation_falls_to_word_witness :
    (strContains (pyLower ciFloat.type) "float" = true ∧
      strContains (pyLower ciFloat.type) "int" = false ∧
      cfgRange.values = none ∧ ciFloat.is_nullable = false ∧
      cfgRange.min_value = some 5 ∧ cfgRange.max_value = some 10) ∧
    generate_value ciFloat (some cfgRange) oW = Except.ok (Value.str "generic") :=
  ⟨by decide,
    C10_float_passes_validation_falls_to_word ciFloat cfgRange oW
      (by decide) (by decide) (by decide) (by decide) (by decide) (by decide)
      (by decide) (by decide) (by decide) (by decide) (by decide) (by decide) (by decide)⟩

/-! ## Claim C6: inverted numeric ranges are clamped -/

def ciIntNN : ColumnInfo := ⟨"integer", false, none, false, false, false⟩

/-- 50.7, built with an explicit numerator/denominator so that the kernel
can evaluate with it. -/
def rat50p7 : Rat := ⟨507, 10, by decide, by decide⟩

def cfgFrac : ColumnConfig := ⟨"age", some rat50p7, some 10, none⟩

def oZ : Oracle := ⟨false, 0, 0, 0, "e", "n", "t", false, 0, "w", 0⟩

/-- C6 counterexample: an integer column configured with
`min_value = 50.7 > max_value = 10` generates the value 50 — strictly below
the configured minimum, because the bounds pass through Python `int()`
truncation before the clamp.  (No error is raised, as the claim says.) -/
theorem C6_counterexample :
    cfgFrac.min_value = some rat50p7 ∧ cfgFrac.max_value = some 10 ∧
    (10 : Rat) < rat50p7 ∧
    generate_value ciIntNN (some cfgFrac) oZ = Except.ok (Value.int 50) ∧
    ((50 : Int) : Rat) < rat50p7 := by
  decide

/-- C6 (amended): for a numeric-family column configured with
`min_value > max_value` generation never raises; on the integer family every
generated value is exactly `int(min_value)` (Python truncation toward zero,
equal to `min_value` whenever it is integral — so `min_value = 50,
max_value = 10` always yields 50); on the numeric/decimal/double family
every generated value is exactly `min_value`.  Null can appear only via the
null injection on a nullable column. -/
theorem C6_min_over_max_clamped (ci : ColumnInfo) (cfg : ColumnConfig) (o : Oracle)
    (m M : Rat)
    (hva : cfg.values = none)
    (hm : cfg.min_value = some m) (hM : cfg.max_value = some M)
    (hinv : M < m) :
    (strContains (pyLower ci.type) "int" = true →
      strContains (pyLower ci.type) "json" = false →
      ∃ v, generate_value ci (some cfg) o = Except.ok v ∧
        ((v = Value.null ∧ ci.is_nullable = true) ∨ v = Value.int (intOfRat m))) ∧
    (∀ z : Int, m = (z : Rat) → intOfRat m = z) ∧
    ((strContains (pyLower ci.type) "numeric" || strContains (pyLower ci.type) "decimal" ||
        strContains (pyLower ci.type) "double") = true →
      strContains (pyLower ci.type) "int" = false →
      strContains (pyLower ci.type) "json" = false →
      strContains (pyLower ci.type) "char" = false →
      strContains (pyLower ci.type) "text" = false →
      strContains (pyLower ci.type) "bool" = false →
      strContains (pyLower ci.type) "date" = false →
      strContains (pyLower ci.type) "time" = false →
      ∃ v, generate_value ci (some cfg) o = Except.ok v ∧
        ((v = Value.null ∧ ci.is_nullable = true) ∨ v = Value.float m)) := by
  have hact : cfgActiveValues (some cfg) = none := by
    rw [cfgActiveValues_eq, hva]
  refine ⟨?_, ?_, ?_⟩
  · intro hint hjson
    by_cases hroll : (ci.is_nullable && o.nullRoll) = true
    · refine ⟨Value.null, ?_, Or.inl ⟨rfl, (Bool.and_eq_true _ _).mp hroll |>.1⟩⟩
      unfold generate_value
      rw [hroll]
      simp
    · have hroll2 : (ci.is_nullable && o.nullRoll) = false := by
        simpa using hroll
      refine ⟨Value.int (intOfRat m), ?_, Or.inr rfl⟩
      unfold generate_value
      rw [hroll2, hact]
      simp only [Bool.false_eq_true, if_neg, not_false_eq_true, hm, hM,
        hint, hjson, Bool.or_true, Bool.true_or, Bool.or_false, Bool.not_true,
        Bool.and_false, Option.isSome_some, Bool.true_and, if_true]
      have hmono : intOfRat M ≤ intOfRat m := intOfRat_mono (le_of_lt hinv)
      by_cases hgt : intOfRat m > intOfRat M
      · simp only [hgt, if_pos, fakerRandomInt_self]
      · have heq : intOfRat M = intOfRat m := by omega
        simp only [heq, ite_self, fakerRandomInt_self]
  · intro z hz
    rw [hz, intOfRat_intCast]
  · intro hnumfam hint hjson hchar htext hbool hdate htime
    by_cases hroll : (ci.is_nullable && o.nullRoll) = true
    · refine ⟨Value.null, ?_, Or.inl ⟨rfl, (Bool.and_eq_true _ _).mp hroll |>.1⟩⟩
      unfold generate_value
      rw [hroll]
      simp
    · have hroll2 : (ci.is_nullable && o.nullRoll) = false := by
        simpa using hroll
      refine ⟨Value.float m, ?_, Or.inr rfl⟩
      unfold generate_value
      rw [hroll2, hact]
      simp only [Bool.false_eq_true, if_neg, not_false_eq_true, hm, hM,
        hint, hjson, hchar, htext, hbool, hdate, htime, hnumfam,
        Bool.or_true, Bool.true_or, Bool.or_false, Bool.false_or, Bool.not_true,
        Bool.and_false, Bool.false_and, Option.isSome_some, Bool.true_and, if_true]
      rw [if_pos hinv, fakerPyfloat_self]

def cfg5010 : ColumnConfig := ⟨"age", some 50, some 10, none⟩

theorem C6_min_over_max_clamped_witness :
    (cfg5010.values = none ∧ cfg5010.min_value = some 50 ∧
      cfg5010.max_value = some 10 ∧ (10 : Rat) < 50) ∧
    (strContains (pyLower ciIntNN.type) "int" = true →
      strContains (pyLower ciIntNN.type) "json" = false →
      ∃ v, generate_value ciIntNN (some cfg5010) oZ = Except.ok v ∧
        ((v = Value.null ∧ ciIntNN.is_nullable = true) ∨
          v = Value.int (intOfRat 50))) :=
  ⟨by decide,
    (C6_min_over_max_clamped ciIntNN cfg5010 oZ 50 10 (by decide) (by decide)
      (by decide) (by decide)).1⟩

/-! ## Properties of the uniqueness retry loop -/

def outState : AttemptOutcome → GenState
  | AttemptOutcome.assigned _ s => s
  | AttemptOutcome.exhausted _ s => s
  | AttemptOutcome.failed _ s => s

lemma attemptLoop_tracker_other (table col : String) (ci : ColumnInfo)
    (cfg : Option ColumnConfig) (u : Bool) :
    ∀ (fuel : Nat) (last : Value) (s : GenState) (t c : String), ¬(t = table ∧ c = col) →
      (outState (attemptLoop table col ci cfg u fuel last s)).tracker t c = s.tracker t c := by
  intro fuel
  induction fuel with
  | zero => intro last s t c _; rfl
  | succ n ih =>
    intro last s t c h
    rw [attemptLoop]
    cases hg : generate_value ci cfg (nextOracle s).1 with
    | error e => rfl
    | ok val =>
      dsimp only
      by_cases hu : (u && !(val == Value.null)) = true
      · rw [if_pos hu]
        by_cases hcont : ((nextOracle s).2.tracker table col).contains val = true
        · rw [if_pos hcont]
          exact ih val (nextOracle s).2 t c h
        · rw [if_neg hcont]
          show (trackerAdd (nextOracle s).2 table col val).tracker t c = s.tracker t c
          unfold trackerAdd
          simp only [if_neg h]
          rfl
      · rw [if_neg hu]
        rfl

lemma attemptLoop_tracker_mono (table col : String) (ci : ColumnInfo)
    (cfg : Option ColumnConfig) (u : Bool) :
    ∀ (fuel : Nat) (last : Value) (s : GenState) (t c : String) (v : Value),
      v ∈ s.tracker t c →
      v ∈ (outState (attemptLoop table col ci cfg u fuel last s)).tracker t c := by
  intro fuel
  induction fuel with
  | zero => intro last s t c v hv; exact hv
  | succ n ih =>
    intro last s t c v hv
    rw [attemptLoop]
    cases hg : generate_value ci cfg (nextOracle s).1 with
    | error e => exact hv
    | ok val =>
      dsimp only
      by_cases hu : (u && !(val == Value.null)) = true
      · rw [if_pos hu]
        by_cases hcont : ((nextOracle s).2.tracker table col).contains val = true
        · rw [if_pos hcont]
          exact ih val (nextOracle s).2 t c v hv
        · rw [if_neg hcont]
          show v ∈ (trackerAdd (nextOracle s).2 table col val).tracker t c
          unfold trackerAdd
          by_cases htc : t = table ∧ c = col
          · simp only [if_pos htc]
            exact List.mem_cons_of_mem _ hv
          · simp only [if_neg htc]
            exact hv
      · rw [if_neg hu]
        exact hv

lemma attemptLoop_assigned_spec (table col : String) (ci : ColumnInfo)
    (cfg : Option ColumnConfig) (u : Bool) :
    ∀ (fuel : Nat) (last : Value) (s : GenState) (v : Value) (s1 : GenState),
      attemptLoop table col ci cfg u fuel last s = AttemptOutcome.assigned v s1 →
      (∃ o, generate_value ci cfg o = Except.ok v) ∧
      (((u && !(v == Value.null)) = true ∧ v ∉ s.tracker table col ∧
          ∀ t c, s1.tracker t c =
            if t = table ∧ c = col then v :: s.tracker t c else s.tracker t c) ∨
        ((u && !(v == Value.null)) = false ∧ s1.tracker = s.tracker)) := by
  intro fuel
  induction fuel with
  | zero => intro last s v s1 h; cases h
  | succ n ih =>
    intro last s v s1 h
    rw [attemptLoop] at h
    cases hg : generate_value ci cfg (nextOracle s).1 with
    | error e => rw [hg] at h; cases h
    | ok val =>
      rw [hg] at h
      dsimp only at h
      by_cases hu : (u && !(val == Value.null)) = true
      · rw [if_pos hu] at h
        by_cases hcont : ((nextOracle s).2.tracker table col).contains val = true
        · rw [if_pos hcont] at h
          exact ih val (nextOracle s).2 v s1 h
        · rw [if_neg hcont] at h
          cases h
          refine ⟨⟨(nextOracle s).1, hg⟩, Or.inl ⟨hu, ?_, fun t c => rfl⟩⟩
          intro hmem
          exact hcont (by simpa using hmem)
      · rw [if_neg hu] at h
        cases h
        exact ⟨⟨(nextOracle s).1, hg⟩, Or.inr ⟨by simpa using hu, rfl⟩⟩

lemma attemptLoop_exhausted_spec (table col : String) (ci : ColumnInfo)
    (cfg : Option ColumnConfig) (u : Bool) :
    ∀ (fuel : Nat) (last : Value) (s : GenState) (last2 : Value) (s1 : GenState),
      fuel ≠ 0 →
      attemptLoop table col ci cfg u fuel last s = AttemptOutcome.exhausted last2 s1 →
      last2 ∈ s.tracker table col ∧ ¬ last2 = Value.null ∧ u = true ∧
      s1.tracker = s.tracker ∧ ∃ o, generate_value ci cfg o = Except.ok last2 := by
  intro fuel
  induction fuel with
  | zero => intro last s last2 s1 hne _; exact absurd rfl hne
  | succ n ih =>
    intro last s last2 s1 _ h
    rw [attemptLoop] at h
    cases hg : generate_value ci cfg (nextOracle s).1 with
    | error e => rw [hg] at h; cases h
    | ok val =>
      rw [hg] at h
      dsimp only at h
      by_cases hu : (u && !(val == Value.null)) = true
      · rw [if_pos hu] at h
        by_cases hcont : ((nextOracle s).2.tracker table col).contains val = true
        · rw [if_pos hcont] at h
          cases n with
          | zero =>
            rw [attemptLoop] at h
            cases h
            have hvm : last2 ∈ s.tracker table col := by simpa using hcont
            rcases Bool.and_eq_true _ _ |>.mp hu with ⟨hu1, hu2⟩
            refine ⟨hvm, ?_, hu1, rfl, ⟨(nextOracle s).1, hg⟩⟩
            intro hnull
            rw [hnull] at hu2
            simp at hu2
          | succ n2 =>
            exact ih val (nextOracle s).2 last2 s1 (Nat.succ_ne_zero n2) h
        · rw [if_neg hcont] at h
          cases h
      · rw [if_neg hu] at h
        cases h

/-! ## Structural properties of the column loop -/

lemma genColumns_keys (table : String) (fks : List (String × FKRef))
    (ucols : List String) (pools : String → List Value)
    (cfgs : String → Option ColumnConfig) :
    ∀ (cols : List (String × ColumnInfo)) (acc : Row) (s s2 : GenState) (row : Row),
      genColumns table fks ucols pools cfgs cols acc s = (s2, Except.ok row) →
      ∀ cv ∈ row, cv ∈ acc ∨ cv.1 ∈ cols.map Prod.fst := by
  intro cols
  induction cols with
  | nil =>
    intro acc s s2 row h cv hcv
    rw [genColumns] at h
    injection h with h1 h2
    injection h2 with h3
    subst h3
    exact Or.inl hcv
  | cons hd rest ih =>
    intro acc s s2 row h cv hcv
    obtain ⟨col_name, col_info⟩ := hd
    rw [genColumns] at h
    by_cases hskip : skipColumn col_info = true
    · rw [if_pos hskip] at h
      rcases ih _ _ _ _ h cv hcv with h2 | h2
      · exact Or.inl h2
      · exact Or.inr (by simp [h2])
    · rw [if_neg hskip] at h
      cases hfk : lookup? fks col_name with
      | some fk =>
        rw [hfk] at h
        dsimp only at h
        by_cases hempty : (pools fk.references_table).isEmpty = true
        · rw [if_pos hempty] at h
          by_cases hnul : col_info.is_nullable = true
          · rw [if_pos hnul] at h
            rcases ih _ _ _ _ h cv hcv with h2 | h2
            · rcases List.mem_append.mp h2 with h3 | h3
              · exact Or.inl h3
              · simp at h3
                exact Or.inr (by simp [h3])
            · exact Or.inr (by simp [h2])
          · rw [if_neg hnul] at h
            injection h with h1 h2
            cases h2
        · rw [if_neg hempty] at h
          rcases ih _ _ _ _ h cv hcv with h2 | h2
          · rcases List.mem_append.mp h2 with h3 | h3
            · exact Or.inl h3
            · simp at h3
              exact Or.inr (by simp [h3])
          · exact Or.inr (by simp [h2])
      | none =>
        rw [hfk] at h
        dsimp only at h
        cases hal : attemptLoop table col_name col_info (cfgs col_name)
            (ucols.contains col_name || col_info.is_unique) 10 Value.null s with
        | assigned v s1 =>
          rw [hal] at h
          dsimp only at h
          rcases ih _ _ _ _ h cv hcv with h2 | h2
          · rcases List.mem_append.mp h2 with h3 | h3
            · exact Or.inl h3
            · simp at h3
              exact Or.inr (by simp [h3])
          · exact Or.inr (by simp [h2])
        | failed e s1 =>
          rw [hal] at h
          dsimp only at h
          injection h with h1 h2
          cases h2
        | exhausted last s1 =>
          rw [hal] at h
          dsimp only at h
          by_cases hu : (ucols.contains col_name || col_info.is_unique) = true
          · rw [if_pos hu] at h
            by_cases htc : (strContains (pyLower col_info.type) "text" ||
                strContains (pyLower col_info.type) "char") = true
            · rw [if_pos htc] at h
              rcases ih _ _ _ _ h cv hcv with h2 | h2
              · rcases List.mem_append.mp h2 with h3 | h3
                · exact Or.inl h3
                · simp at h3
                  exact Or.inr (by simp [h3])
              · exact Or.inr (by simp [h2])
            · rw [if_neg htc] at h
              injection h with h1 h2
              cases h2
          · rw [if_neg hu] at h
            rcases ih _ _ _ _ h cv hcv with h2 | h2
            · exact Or.inl h2
            · exact Or.inr (by simp [h2])

lemma genColumns_tracker_mono (table : String) (fks : List (String × FKRef))
    (ucols : List String) (pools : String → List Value)
    (cfgs : String → Option ColumnConfig) :
    ∀ (cols : List (String × ColumnInfo)) (acc : Row) (s : GenState),
      ∀ t c v, v ∈ s.tracker t c →
        v ∈ (genColumns table fks ucols pools cfgs cols acc s).1.tracker t c := by
  intro cols
  induction cols with
  | nil =>
    intro acc s t c v hv
    exact hv
  | cons hd rest ih =>
    intro acc s t c v hv
    obtain ⟨col_name, col_info⟩ := hd
    rw [genColumns]
    by_cases hskip : skipColumn col_info = true
    · rw [if_pos hskip]
      exact ih _ _ _ _ _ hv
    · rw [if_neg hskip]
      cases hfk : lookup? fks col_name with
      | some fk =>
        dsimp only
        by_cases hempty : (pools fk.references_table).isEmpty = true
        · rw [if_pos hempty]
          by_cases hnul : col_info.is_nullable = true
          · rw [if_pos hnul]
            exact ih _ _ _ _ _ hv
          · rw [if_neg hnul]
            exact hv
        · rw [if_neg hempty]
          exact ih _ _ _ _ _ hv
      | none =>
        dsimp only
        cases hal : attemptLoop table col_name col_info (cfgs col_name)
            (ucols.contains col_name || col_info.is_unique) 10 Value.null s with
        | assigned v2 s1 =>
          dsimp only
          have hm := attemptLoop_tracker_mono table col_name col_info (cfgs col_name)
            (ucols.contains col_name || col_info.is_unique) 10 Value.null s t c v hv
          rw [hal] at hm
          exact ih _ _ _ _ _ hm
        | failed e s1 =>
          dsimp only
          have hm := attemptLoop_tracker_mono table col_name col_info (cfgs col_name)
            (ucols.contains col_name || col_info.is_unique) 10 Value.null s t c v hv
          rw [hal] at hm
          exact hm
        | exhausted last s1 =>
          dsimp only
          have hm := attemptLoop_tracker_mono table col_name col_info (cfgs col_name)
            (ucols.contains col_name || col_info.is_unique) 10 Value.null s t c v hv
          rw [hal] at hm
          by_cases hu : (ucols.contains col_name || col_info.is_unique) = true
          · rw [if_pos hu]
            by_cases htc : (strContains (pyLower col_info.type) "text" ||
                strContains (pyLower col_info.type) "char") = true
            · rw [if_pos htc]
              apply ih
              show v ∈ (trackerAdd _ table col_name _).tracker t c
              unfold trackerAdd
              by_cases htcc : t = table ∧ c = col_name
              · simp only [if_pos htcc]
                exact List.mem_cons_of_mem _ hm
              · simp only [if_neg htcc]
                exact hm
            · rw [if_neg htc]
              exact hm
          · rw [if_neg hu]
            exact ih _ _ _ _ _ hm

/-- Provenance of non-FK column values: every value emitted for a
non-skipped, non-FK column either came from one `_generate_value` draw, or
is the uniqueness fallback — a drawn value with `_` and a four-digit random
suffix appended. -/
lemma genColumns_provenance (table : String) (fks : List (String × FKRef))
    (ucols : List String) (pools : String → List Value)
    (cfgs : String → Option ColumnConfig) :
    ∀ (cols : List (String × ColumnInfo)) (acc : Row) (s s2 : GenState) (row : Row),
      genColumns table fks ucols pools cfgs cols acc s = (s2, Except.ok row) →
      (cols.map Prod.fst).Nodup →
      ∀ col ci v, (col, ci) ∈ cols → lookup? fks col = none →
        skipColumn ci = false → (col, v) ∈ row → (col, v) ∉ acc →
        (∃ o, generate_value ci (cfgs col) o = Except.ok v) ∨
        (∃ w n o, v = Value.str (pyStr w ++ "_" ++ toString (1000 + n % 9000)) ∧
          ¬ w = Value.null ∧ generate_value ci (cfgs col) o = Except.ok w) := by
  intro cols
  induction cols with
  | nil =>
    intro acc s s2 row h hnd col ci v hmem
    cases hmem
  | cons hd rest ih =>
    intro acc s s2 row h hnd col ci v hmem hfkc hskipc hrow hacc
    obtain ⟨col_name, col_info⟩ := hd
    have hnc := List.nodup_cons.mp (show (col_name :: rest.map Prod.fst).Nodup from hnd)
    have hnd1 : col_name ∉ rest.map Prod.fst := hnc.1
    have hnd2 : (rest.map Prod.fst).Nodup := hnc.2
    rw [genColumns] at h
    by_cases hceq : col_name = col
    · -- the head is the column in question
      subst hceq
      have hci : ci = col_info := by
        rcases List.mem_cons.mp hmem with h2 | h2
        · exact (Prod.mk.injEq _ _ _ _ |>.mp h2.symm).2.symm
        · exact absurd (List.mem_map_of_mem Prod.fst h2) hnd1
      subst hci
      rw [if_neg (by rw [hskipc]; exact Bool.false_ne_true)] at h
      rw [hfkc] at h
      dsimp only at h
      cases hal : attemptLoop table col_name ci (cfgs col_name)
          (ucols.contains col_name || ci.is_unique) 10 Value.null s with
      | assigned v0 s1 =>
        rw [hal] at h
        dsimp only at h
        have hkeys := genColumns_keys table fks ucols pools cfgs rest _ _ _ _ h
          (col_name, v) hrow
        rcases hkeys with h2 | h2
        · rcases List.mem_append.mp h2 with h3 | h3
          · exact absurd h3 hacc
          · simp at h3
            subst h3
            exact Or.inl (attemptLoop_assigned_spec table col_name ci (cfgs col_name)
              (ucols.contains col_name || ci.is_unique) 10 Value.null s _ _ hal).1
        · exact absurd h2 hnd1
      | failed e s1 =>
        rw [hal] at h
        dsimp only at h
        injection h with h1 h2
        cases h2
      | exhausted last s1 =>
        rw [hal] at h
        dsimp only at h
        by_cases hu : (ucols.contains col_name || ci.is_unique) = true
        · rw [if_pos hu] at h
          by_cases htc : (strContains (pyLower ci.type) "text" ||
              strContains (pyLower ci.type) "char") = true
          · rw [if_pos htc] at h
            have hkeys := genColumns_keys table fks ucols pools cfgs rest _ _ _ _ h
              (col_name, v) hrow
            rcases hkeys with h2 | h2
            · rcases List.mem_append.mp h2 with h3 | h3
              · exact absurd h3 hacc
              · simp at h3
                subst h3
                have hex := attemptLoop_exhausted_spec table col_name ci (cfgs col_name)
                  (ucols.contains col_name || ci.is_unique) 10 Value.null s _ _
                  (by omega) hal
                obtain ⟨_, hlnn, _, _, o, ho⟩ := hex
                exact Or.inr ⟨last, (nextOracle s1).1.suffixRaw, o, rfl, hlnn, ho⟩
            · exact absurd h2 hnd1
          · rw [if_neg htc] at h
            injection h with h1 h2
            cases h2
        · rw [if_neg hu] at h
          have hkeys := genColumns_keys table fks ucols pools cfgs rest _ _ _ _ h
            (col_name, v) hrow
          rcases hkeys with h2 | h2
          · exact absurd h2 hacc
          · exact absurd h2 hnd1
    · -- the head is a different column; recurse
      have hmem2 : (col, ci) ∈ rest := by
        rcases List.mem_cons.mp hmem with h2 | h2
        · exact absurd (Prod.mk.injEq _ _ _ _ |>.mp h2).1.symm hceq
        · exact h2
      have hacc2 : ∀ (x : Value), (col, v) ∉ acc ++ [(col_name, x)] := by
        intro x hx
        rcases List.mem_append.mp hx with h3 | h3
        · exact hacc h3
        · simp at h3
          exact hceq h3.1.symm
      by_cases hskip : skipColumn col_info = true
      · rw [if_pos hskip] at h
        exact ih _ _ _ _ h hnd2 col ci v hmem2 hfkc hskipc hrow hacc
      · rw [if_neg hskip] at h
        cases hfk : lookup? fks col_name with
        | some fk =>
          rw [hfk] at h
          dsimp only at h
          by_cases hempty : (pools fk.references_table).isEmpty = true
          · rw [if_pos hempty] at h
            by_cases hnul : col_info.is_nullable = true
            · rw [if_pos hnul] at h
              exact ih _ _ _ _ h hnd2 col ci v hmem2 hfkc hskipc hrow (hacc2 _)
            · rw [if_neg hnul] at h
              injection h with h1 h2
              cases h2
          · rw [if_neg hempty] at h
            exact ih _ _ _ _ h hnd2 col ci v hmem2 hfkc hskipc hrow (hacc2 _)
        | none =>
          rw [hfk] at h
          dsimp only at h
          cases hal : attemptLoop table col_name col_info (cfgs col_name)
              (ucols.contains col_name || col_info.is_unique) 10 Value.null s with
          | assigned v0 s1 =>
            rw [hal] at h
            dsimp only at h
            exact ih _ _ _ _ h hnd2 col ci v hmem2 hfkc hskipc hrow (hacc2 _)
          | failed e s1 =>
            rw [hal] at h
            dsimp only at h
            injection h with h1 h2
            cases h2
          | exhausted last s1 =>
            rw [hal] at h
            dsimp only at h
            by_cases hu : (ucols.contains col_name || col_info.is_unique) = true
            · rw [if_pos hu] at h
              by_cases htc : (strContains (pyLower col_info.type) "text" ||
                  strContains (pyLower col_info.type) "char") = true
              · rw [if_pos htc] at h
                exact ih _ _ _ _ h hnd2 col ci v hmem2 hfkc hskipc hrow (hacc2 _)
              · rw [if_neg htc] at h
                injection h with h1 h2
                cases h2
            · rw [if_neg hu] at h
              exact ih _ _ _ _ h hnd2 col ci v hmem2 hfkc hskipc hrow hacc

/-- Uniqueness bookkeeping for non-FK unique columns: an accepted non-null
value is recorded in the tracker, and it either was absent from the tracker
when the call began, or is the unchecked suffix fallback built from a
previously recorded value. -/
lemma genColumns_unique (table : String) (fks : List (String × FKRef))
    (ucols : List String) (pools : String → List Value)
    (cfgs : String → Option ColumnConfig) :
    ∀ (cols : List (String × ColumnInfo)) (acc : Row) (s s2 : GenState) (row : Row),
      genColumns table fks ucols pools cfgs cols acc s = (s2, Except.ok row) →
      (cols.map Prod.fst).Nodup →
      ∀ col ci v, (col, ci) ∈ cols → lookup? fks col = none →
        skipColumn ci = false →
        (ucols.contains col || ci.is_unique) = true →
        (col, v) ∈ row → (col, v) ∉ acc → ¬ v = Value.null →
        v ∈ s2.tracker table col ∧
        (v ∉ s.tracker table col ∨
          ∃ w n, w ∈ s.tracker table col ∧
            v = Value.str (pyStr w ++ "_" ++ toString (1000 + n % 9000))) := by
  intro cols
  induction cols with
  | nil =>
    intro acc s s2 row h hnd col ci v hmem
    cases hmem
  | cons hd rest ih =>
    intro acc s s2 row h hnd col ci v hmem hfkc hskipc huniq hrow hacc hvnn
    obtain ⟨col_name, col_info⟩ := hd
    have hnc := List.nodup_cons.mp (show (col_name :: rest.map Prod.fst).Nodup from hnd)
    have hnd1 : col_name ∉ rest.map Prod.fst := hnc.1
    have hnd2 : (rest.map Prod.fst).Nodup := hnc.2
    rw [genColumns] at h
    by_cases hceq : col_name = col
    · subst hceq
      have hci : ci = col_info := by
        rcases List.mem_cons.mp hmem with h2 | h2
        · exact (Prod.mk.injEq _ _ _ _ |>.mp h2.symm).2.symm
        · exact absurd (List.mem_map_of_mem Prod.fst h2) hnd1
      subst hci
      rw [if_neg (by rw [hskipc]; exact Bool.false_ne_true)] at h
      rw [hfkc] at h
      dsimp only at h
      cases hal : attemptLoop table col_name ci (cfgs col_name)
          (ucols.contains col_name || ci.is_unique) 10 Value.null s with
      | assigned v0 s1 =>
        rw [hal] at h
        dsimp only at h
        have hkeys := genColumns_keys table fks ucols pools cfgs rest _ _ _ _ h
          (col_name, v) hrow
        have hveq : v = v0 := by
          rcases hkeys with h2 | h2
          · rcases List.mem_append.mp h2 with h3 | h3
            · exact absurd h3 hacc
            · simpa using h3
          · exact absurd h2 hnd1
        subst hveq
        have hspec := attemptLoop_assigned_spec table col_name ci (cfgs col_name)
          (ucols.contains col_name || ci.is_unique) 10 Value.null s _ _ hal
        have hguard : ((ucols.contains col_name || ci.is_unique) &&
            !(v == Value.null)) = true := by
          rw [huniq]
          simp [hvnn]
        rcases hspec.2 with ⟨_, hnotin, htr⟩ | ⟨hguard2, _⟩
        · have hin1 : v ∈ s1.tracker table col_name := by
            rw [htr table col_name]
            simp
          have hmono := genColumns_tracker_mono table fks ucols pools cfgs rest
            (acc ++ [(col_name, v)]) s1 table col_name v hin1
          rw [h] at hmono
          exact ⟨hmono, Or.inl hnotin⟩
        · rw [hguard] at hguard2
          cases hguard2
      | failed e s1 =>
        rw [hal] at h
        dsimp only at h
        injection h with h1 h2
        cases h2
      | exhausted last s1 =>
        rw [hal] at h
        dsimp only at h
        by_cases hu : (ucols.contains col_name || ci.is_unique) = true
        · rw [if_pos hu] at h
          by_cases htc : (strContains (pyLower ci.type) "text" ||
              strContains (pyLower ci.type) "char") = true
          · rw [if_pos htc] at h
            have hkeys := genColumns_keys table fks ucols pools cfgs rest _ _ _ _ h
              (col_name, v) hrow
            have hveq : v = Value.str (pyStr last ++ "_" ++
                toString (randint4 (nextOracle s1).1.suffixRaw)) := by
              rcases hkeys with h2 | h2
              · rcases List.mem_append.mp h2 with h3 | h3
                · exact absurd h3 hacc
                · simpa using h3
              · exact absurd h2 hnd1
            have hex := attemptLoop_exhausted_spec table col_name ci (cfgs col_name)
              (ucols.contains col_name || ci.is_unique) 10 Value.null s _ _
              (by omega) hal
            obtain ⟨hlin, _, _, htr1, _⟩ := hex
            have hin1 : v ∈ (trackerAdd (nextOracle s1).2 table col_name
                (Value.str (pyStr last ++ "_" ++
                  toString (randint4 (nextOracle s1).1.suffixRaw)))).tracker table col_name := by
              rw [hveq]
              unfold trackerAdd
              simp
            have hmono := genColumns_tracker_mono table fks ucols pools cfgs rest
              (acc ++ [(col_name, Value.str (pyStr last ++ "_" ++
                toString (randint4 (nextOracle s1).1.suffixRaw)))])
              (trackerAdd (nextOracle s1).2 table col_name
                (Value.str (pyStr last ++ "_" ++
                  toString (randint4 (nextOracle s1).1.suffixRaw))))
              table col_name v hin1
            rw [h] at hmono
            exact ⟨hmono, Or.inr ⟨last, (nextOracle s1).1.suffixRaw, hlin, hveq⟩⟩
          · rw [if_neg htc] at h
            injection h with h1 h2
            cases h2
        · rw [if_neg hu] at h
          have hkeys := genColumns_keys table fks ucols pools cfgs rest _ _ _ _ h
            (col_name, v) hrow
          rcases hkeys with h2 | h2
          · exact absurd h2 hacc
          · exact absurd h2 hnd1
    · -- head is a different column
      have hmem2 : (col, ci) ∈ rest := by
        rcases List.mem_cons.mp hmem with h2 | h2
        · exact absurd (Prod.mk.injEq _ _ _ _ |>.mp h2).1.symm hceq
        · exact h2
      have hacc2 : ∀ (x : Value), (col, v) ∉ acc ++ [(col_name, x)] := by
        intro x hx
        rcases List.mem_append.mp hx with h3 | h3
        · exact hacc h3
        · simp at h3
          exact hceq h3.1.symm
      have hne : ¬(table = table ∧ col = col_name) := by
        rintro ⟨_, h2⟩
        exact hceq h2.symm
      by_cases hskip : skipColumn col_info = true
      · rw [if_pos hskip] at h
        exact ih _ _ _ _ h hnd2 col ci v hmem2 hfkc hskipc huniq hrow hacc hvnn
      · rw [if_neg hskip] at h
        cases hfk : lookup? fks col_name with
        | some fk =>
          rw [hfk] at h
          dsimp only at h
          by_cases hempty : (pools fk.references_table).isEmpty = true
          · rw [if_pos hempty] at h
            by_cases hnul : col_info.is_nullable = true
            · rw [if_pos hnul] at h
              exact ih _ _ _ _ h hnd2 col ci v hmem2 hfkc hskipc huniq hrow (hacc2 _) hvnn
            · rw [if_neg hnul] at h
              injection h with h1 h2
              cases h2
          · rw [if_neg hempty] at h
            exact ih _ _ _ _ h hnd2 col ci v hmem2 hfkc hskipc huniq hrow (hacc2 _) hvnn
        | none =>
          rw [hfk] at h
          dsimp only at h
          cases hal : attemptLoop table col_name col_info (cfgs col_name)
              (ucols.contains col_name || col_info.is_unique) 10 Value.null s with
          | assigned v0 s1 =>
            rw [hal] at h
            dsimp only at h
            have htro := attemptLoop_tracker_other table col_name col_info (cfgs col_name)
              (ucols.contains col_name || col_info.is_unique) 10 Value.null s
              table col hne
            rw [hal] at htro
            dsimp only [outState] at htro
            have hrec := ih _ _ _ _ h hnd2 col ci v hmem2 hfkc hskipc huniq hrow
              (hacc2 _) hvnn
            rw [htro] at hrec
            exact hrec
          | failed e s1 =>
            rw [hal] at h
            dsimp only at h
            injection h with h1 h2
            cases h2
          | exhausted last s1 =>
            rw [hal] at h
            dsimp only at h
            have htro := attemptLoop_tracker_other table col_name col_info (cfgs col_name)
              (ucols.contains col_name || col_info.is_unique) 10 Value.null s
              table col hne
            rw [hal] at htro
            dsimp only [outState] at htro
            by_cases hu : (ucols.contains col_name || col_info.is_unique) = true
            · rw [if_pos hu] at h
              by_cases htc : (strContains (pyLower col_info.type) "text" ||
                  strContains (pyLower col_info.type) "char") = true
              · rw [if_pos htc] at h
                have hrec := ih _ _ _ _ h hnd2 col ci v hmem2 hfkc hskipc huniq hrow
                  (hacc2 _) hvnn
                have htr2 : (trackerAdd (nextOracle s1).2 table col_name
                    (Value.str (pyStr last ++ "_" ++
                      toString (randint4 (nextOracle s1).1.suffixRaw)))).tracker table col =
                    s.tracker table col := by
                  unfold trackerAdd
                  dsimp only
                  rw [if_neg hne]
                  exact htro
                rw [htr2] at hrec
                exact hrec
              · rw [if_neg htc] at h
                injection h with h1 h2
                cases h2
            · rw [if_neg hu] at h
              have hrec := ih _ _ _ _ h hnd2 col ci v hmem2 hfkc hskipc huniq hrow
                hacc hvnn
              rw [htro] at hrec
              exact hrec

/-! ## Claim C5: explicit value sets versus null injection -/

lemma generate_value_values_mem {ci : ColumnInfo} {cfg : ColumnConfig} {o : Oracle}
    {v : Value} {vs : List Value}
    (hact : cfgActiveValues (some cfg) = some vs)
    (h : generate_value ci (some cfg) o = Except.ok v) :
    v = Value.null ∨ v ∈ vs := by
  unfold generate_value at h
  by_cases hroll : (ci.is_nullable && o.nullRoll) = true
  · rw [if_pos hroll] at h
    injection h with h2
    exact Or.inl h2.symm
  · rw [if_neg hroll, hact] at h
    dsimp only at h
    by_cases h1 : (strContains (pyLower ci.type) "int" &&
        !(isPyInt (randomChoice vs o.choiceRaw))) = true
    · rw [if_pos h1] at h
      cases h
    · rw [if_neg h1] at h
      by_cases h2 : ((strContains (pyLower ci.type) "numeric" ||
          strContains (pyLower ci.type) "decimal" ||
          strContains (pyLower ci.type) "float") &&
          !(isPyNum (randomChoice vs o.choiceRaw))) = true
      · rw [if_pos h2] at h
        cases h
      · rw [if_neg h2] at h
        injection h with h3
        exact Or.inr (h3 ▸ randomChoice_mem (cfgActiveValues_ne_nil hact) o.choiceRaw)

def schemaStatus : Schema :=
  [("t", ⟨[("status", ⟨"text", true, none, false, false, false⟩)], [], []⟩)]

def cfgStatus : String → Option ColumnConfig := fun c =>
  if c = "status" then
    some ⟨"status", none, none, some [Value.str "active", Value.str "closed"]⟩
  else none

def oNullRoll : Oracle := ⟨true, 0, 0, 0, "e", "n", "tx", false, 0, "w", 0⟩

def sN0 : GenState := ⟨fun _ _ => [], fun _ => oNullRoll, 0⟩

/-- C5 counterexample: a nullable column configured with the explicit value
set `active, closed` emits null when the 10% null injection fires (the
injection runs before the value-set override), and null is not a member of
the configured set. -/
theorem C5_counterexample :
    (generate_row schemaStatus sN0 "t" fkEmpty cfgStatus).2 =
      Except.ok [("status", Value.null)] ∧
    cfgStatus "status" =
      some ⟨"status", none, none, some [Value.str "active", Value.str "closed"]⟩ ∧
    Value.null ∉ [Value.str "active", Value.str "closed"] := by
  decide

/-- C5 (amended): for a column configured with a non-empty explicit value
set, every value `generate_row` emits for it is a member of the set, or null
(possible exactly because the 10% null injection on a nullable column runs
before the value-set override), or — for a unique text-family column after
retry exhaustion — a member of the set with `_` and a random four-digit
suffix appended. -/
theorem C5_values_member_or_null_or_suffixed
    (schema : Schema) (s : GenState) (table : String)
    (pools : String → List Value) (cfgs : String → Option ColumnConfig)
    (ts : TableSchema) (s2 : GenState) (row : Row)
    (cfg : ColumnConfig) (vs : List Value) (col : String) (ci : ColumnInfo) (v : Value)
    (hts : lookupTable schema table = some ts)
    (hnd : (ts.columns.map Prod.fst).Nodup)
    (hrun : generate_row schema s table pools cfgs = (s2, Except.ok row))
    (hcol : (col, ci) ∈ ts.columns)
    (hfk : lookup? ts.foreign_keys col = none)
    (hskip : skipColumn ci = false)
    (hcfg : cfgs col = some cfg)
    (hact : cfgActiveValues (some cfg) = some vs)
    (hrow : (col, v) ∈ row) :
    v ∈ vs ∨ v = Value.null ∨
      ∃ w n, w ∈ vs ∧ v = Value.str (pyStr w ++ "_" ++ toString (1000 + n % 9000)) := by
  unfold generate_row at hrun
  rw [hts] at hrun
  dsimp only at hrun
  have hprov := genColumns_provenance table ts.foreign_keys ts.unique_columns pools cfgs
    ts.columns [] s s2 row hrun hnd col ci v hcol hfk hskip hrow (by simp)
  rcases hprov with ⟨o, ho⟩ | ⟨w, n, o, hshape, hwnn, ho⟩
  · rw [hcfg] at ho
    rcases generate_value_values_mem hact ho with h | h
    · exact Or.inr (Or.inl h)
    · exact Or.inl h
  · rw [hcfg] at ho
    rcases generate_value_values_mem hact ho with h | h
    · exact absurd h hwnn
    · exact Or.inr (Or.inr ⟨w, n, h, hshape⟩)

theorem C5_values_member_or_null_or_suffixed_witness :
    (lookupTable schemaStatus "t" =
        some ⟨[("status", ⟨"text", true, none, false, false, false⟩)], [], []⟩ ∧
      cfgStatus "status" =
        some ⟨"status", none, none, some [Value.str "active", Value.str "closed"]⟩ ∧
      (generate_row schemaStatus sN0 "t" fkEmpty cfgStatus).2 =
        Except.ok [("status", Value.null)]) ∧
    (Value.null ∈ [Value.str "active", Value.str "closed"] ∨ Value.null = Value.null ∨
      ∃ w n, w ∈ [Value.str "active", Value.str "closed"] ∧
        Value.null = Value.str (pyStr w ++ "_" ++ toString (1000 + n % 9000))) := by
  refine ⟨by decide, ?_⟩
  have hrun : generate_row schemaStatus sN0 "t" fkEmpty cfgStatus =
      ((generate_row schemaStatus sN0 "t" fkEmpty cfgStatus).1,
        Except.ok [("status", Value.null)]) := by
    have h2 : (generate_row schemaStatus sN0 "t" fkEmpty cfgStatus).2 =
        Except.ok [("status", Value.null)] := by decide
    rw [← h2]
  exact C5_values_member_or_null_or_suffixed schemaStatus sN0 "t" fkEmpty cfgStatus
    ⟨[("status", ⟨"text", true, none, false, false, false⟩)], [], []⟩
    (generate_row schemaStatus sN0 "t" fkEmpty cfgStatus).1
    [("status", Value.null)]
    ⟨"status", none, none, some [Value.str "active", Value.str "closed"]⟩
    [Value.str "active", Value.str "closed"]
    "status" ⟨"text", true, none, false, false, false⟩ Value.null
    (by decide) (by decide) hrun (by decide) (by decide) (by decide) (by decide)
    (by decide) (by decide)

/-! ## Claim C2: uniqueness across rows and the suffix fallback -/

def oX : Oracle := ⟨false, 0, 0, 0, "e@x.com", "Nm", "x", false, 0, "w", 234⟩

def schemaT : Schema :=
  [("t", ⟨[("c", ⟨"text", false, none, false, false, true⟩)], [], ["c"]⟩)]

def sX0 : GenState := ⟨fun _ _ => [], fun _ => oX, 0⟩

def runX1 : GenState × Except String Row := generate_row schemaT sX0 "t" fkEmpty cfgNone

def runX2 : GenState × Except String Row := generate_row schemaT runX1.1 "t" fkEmpty cfgNone

def runX3 : GenState × Except String Row := generate_row schemaT runX2.1 "t" fkEmpty cfgNone

/-- C2 counterexample: three consecutive `generate_row` calls on a unique
text column.  The second and third calls both exhaust their retries and both
accept the fallback value `x_1234`: two rows hold an equal non-null value
for the unique column, and the third call's fallback equals a value already
recorded in the tracker — the suffix fallback is not re-checked against the
Uniqueness Tracker. -/
theorem C2_counterexample :
    runX1.2 = Except.ok [("c", Value.str "x")] ∧
    runX2.2 = Except.ok [("c", Value.str "x_1234")] ∧
    runX3.2 = Except.ok [("c", Value.str "x_1234")] ∧
    Value.str "x_1234" ∈ runX2.1.tracker "t" "c" ∧
    "c" ∈ ((lookupTable schemaT "t").map TableSchema.unique_columns).getD [] ∧
    ¬ Value.str "x_1234" = Value.null := by
  decide

/-- C2 (amended): for a non-FK unique column, every non-null value accepted
by `generate_row` is recorded in the tracker on return, and either did not
occur in the tracker when the call began (the retry-loop check), or is the
text-family suffix fallback: a previously recorded value with `_` and a
random four-digit suffix appended, accepted without re-checking the tracker
(and therefore itself possibly a duplicate). -/
theorem C2_unique_recorded_fresh_or_suffixed
    (schema : Schema) (s : GenState) (table : String)
    (pools : String → List Value) (cfgs : String → Option ColumnConfig)
    (ts : TableSchema) (s2 : GenState) (row : Row)
    (col : String) (ci : ColumnInfo) (v : Value)
    (hts : lookupTable schema table = some ts)
    (hnd : (ts.columns.map Prod.fst).Nodup)
    (hrun : generate_row schema s table pools cfgs = (s2, Except.ok row))
    (hcol : (col, ci) ∈ ts.columns)
    (hfk : lookup? ts.foreign_keys col = none)
    (hskip : skipColumn ci = false)
    (huniq : (ts.unique_columns.contains col || ci.is_unique) = true)
    (hrow : (col, v) ∈ row)
    (hvnn : ¬ v = Value.null) :
    v ∈ s2.tracker table col ∧
    (v ∉ s.tracker table col ∨
      ∃ w n, w ∈ s.tracker table col ∧
        v = Value.str (pyStr w ++ "_" ++ toString (1000 + n % 9000))) := by
  unfold generate_row at hrun
  rw [hts] at hrun
  dsimp only at hrun
  exact genColumns_unique table ts.foreign_keys ts.unique_columns pools cfgs
    ts.columns [] s s2 row hrun hnd col ci v hcol hfk hskip huniq hrow (by simp) hvnn

theorem C2_unique_recorded_fresh_or_suffixed_witness :
    (lookupTable schemaT "t" =
        some ⟨[("c", ⟨"text", false, none, false, false, true⟩)], [], ["c"]⟩ ∧
      runX1.2 = Except.ok [("c", Value.str "x")] ∧
      (["c"] : List String).contains "c" = true) ∧
    (Value.str "x" ∈ runX1.1.tracker "t" "c" ∧
      (Value.str "x" ∉ sX0.tracker "t" "c" ∨
        ∃ w n, w ∈ sX0.tracker "t" "c" ∧
          Value.str "x" = Value.str (pyStr w ++ "_" ++ toString (1000 + n % 9000)))) := by
  refine ⟨by decide, ?_⟩
  have hrun : generate_row schemaT sX0 "t" fkEmpty cfgNone =
      (runX1.1, Except.ok [("c", Value.str "x")]) := by
    have h2 : runX1.2 = Except.ok [("c", Value.str "x")] := by decide
    rw [← h2]
    rfl
  exact C2_unique_recorded_fresh_or_suffixed schemaT sX0 "t" fkEmpty cfgNone
    ⟨[("c", ⟨"text", false, none, false, false, true⟩)], [], ["c"]⟩
    runX1.1 [("c", Value.str "x")] "c" ⟨"text", false, none, false, false, true⟩
    (Value.str "x")
    (by decide) (by decide) hrun (by decide) (by decide) (by decide) (by decide)
    (by decide) (by decide)

/-! ## Claim C3: foreign-key columns and id pools -/

lemma genColumns_fk_entries (table : String) (fks : List (String × FKRef))
    (ucols : List String) (pools : String → List Value)
    (cfgs : String → Option ColumnConfig) :
    ∀ (cols : List (String × ColumnInfo)) (acc : Row) (s s2 : GenState) (row : Row),
      genColumns table fks ucols pools cfgs cols acc s = (s2, Except.ok row) →
      (∀ cv ∈ acc, ∀ fk, lookup? fks cv.1 = some fk →
        (pools fk.references_table = [] ∧ cv.2 = Value.null) ∨
          cv.2 ∈ pools fk.references_table) →
      ∀ cv ∈ row, ∀ fk, lookup? fks cv.1 = some fk →
        (pools fk.references_table = [] ∧ cv.2 = Value.null) ∨
          cv.2 ∈ pools fk.references_table := by
  intro cols
  induction cols with
  | nil =>
    intro acc s s2 row h hacc cv hcv
    rw [genColumns] at h
    injection h with h1 h2
    injection h2 with h3
    subst h3
    exact hacc cv hcv
  | cons hd rest ih =>
    intro acc s s2 row h hacc cv hcv
    obtain ⟨col_name, col_info⟩ := hd
    rw [genColumns] at h
    by_cases hskip : skipColumn col_info = true
    · rw [if_pos hskip] at h
      exact ih _ _ _ _ h hacc cv hcv
    · rw [if_neg hskip] at h
      cases hfk : lookup? fks col_name with
      | some fk0 =>
        rw [hfk] at h
        dsimp only at h
        by_cases hempty : (pools fk0.references_table).isEmpty = true
        · by_cases hnul : col_info.is_nullable = true
          · rw [if_pos hempty, if_pos hnul] at h
            refine ih _ _ _ _ h ?_ cv hcv
            intro cv2 hcv2 fk hfk2
            rcases List.mem_append.mp hcv2 with h3 | h3
            · exact hacc cv2 h3 fk hfk2
            · simp at h3
              subst h3
              rw [hfk] at hfk2
              injection hfk2 with hfk3
              subst hfk3
              exact Or.inl ⟨by simpa using hempty, rfl⟩
          · rw [if_pos hempty, if_neg hnul] at h
            injection h with h1 h2
            cases h2
        · rw [if_neg hempty] at h
          refine ih _ _ _ _ h ?_ cv hcv
          intro cv2 hcv2 fk hfk2
          rcases List.mem_append.mp hcv2 with h3 | h3
          · exact hacc cv2 h3 fk hfk2
          · simp at h3
            subst h3
            rw [hfk] at hfk2
            injection hfk2 with hfk3
            subst hfk3
            refine Or.inr (randomChoice_mem ?_ _)
            intro hnil
            rw [hnil] at hempty
            exact hempty rfl
      | none =>
        rw [hfk] at h
        dsimp only at h
        have hnewacc : ∀ (x : Value),
            (∀ cv2 ∈ acc ++ [(col_name, x)], ∀ fk, lookup? fks cv2.1 = some fk →
              (pools fk.references_table = [] ∧ cv2.2 = Value.null) ∨
                cv2.2 ∈ pools fk.references_table) := by
          intro x cv2 hcv2 fk hfk2
          rcases List.mem_append.mp hcv2 with h3 | h3
          · exact hacc cv2 h3 fk hfk2
          · simp at h3
            subst h3
            rw [hfk] at hfk2
            cases hfk2
        cases hal : attemptLoop table col_name col_info (cfgs col_name)
            (ucols.contains col_name || col_info.is_unique) 10 Value.null s with
        | assigned v0 s1 =>
          rw [hal] at h
          dsimp only at h
          exact ih _ _ _ _ h (hnewacc _) cv hcv
        | failed e s1 =>
          rw [hal] at h
          dsimp only at h
          injection h with h1 h2
          cases h2
        | exhausted last s1 =>
          rw [hal] at h
          dsimp only at h
          by_cases hu : (ucols.contains col_name || col_info.is_unique) = true
          · rw [if_pos hu] at h
            by_cases htc : (strContains (pyLower col_info.type) "text" ||
                strContains (pyLower col_info.type) "char") = true
            · rw [if_pos htc] at h
              exact ih _ _ _ _ h (hnewacc _) cv hcv
            · rw [if_neg htc] at h
              injection h with h1 h2
              cases h2
          · rw [if_neg hu] at h
            exact ih _ _ _ _ h hacc cv hcv

lemma genColumns_fk_fail (table : String) (fks : List (String × FKRef))
    (ucols : List String) (pools : String → List Value)
    (cfgs : String → Option ColumnConfig) :
    ∀ (cols : List (String × ColumnInfo)) (acc : Row) (s : GenState)
      (col : String) (ci : ColumnInfo) (fk : FKRef),
      (col, ci) ∈ cols → skipColumn ci = false →
      lookup? fks col = some fk → pools fk.references_table = [] →
      ci.is_nullable = false →
      ∃ e, (genColumns table fks ucols pools cfgs cols acc s).2 = Except.error e := by
  intro cols
  induction cols with
  | nil =>
    intro acc s col ci fk hmem
    cases hmem
  | cons hd rest ih =>
    intro acc s col ci fk hmem hskipc hfkc hempty hnul
    obtain ⟨col_name, col_info⟩ := hd
    rw [genColumns]
    rcases List.mem_cons.mp hmem with hpair | hpair
    · injection hpair with hp1 hp2
      subst hp1
      subst hp2
      rw [if_neg (by rw [hskipc]; exact Bool.false_ne_true), hfkc]
      dsimp only
      rw [if_pos (by rw [hempty]; rfl), if_neg (by rw [hnul]; exact Bool.false_ne_true)]
      exact ⟨_, rfl⟩
    · by_cases hskip : skipColumn col_info = true
      · rw [if_pos hskip]
        exact ih _ _ col ci fk hpair hskipc hfkc hempty hnul
      · rw [if_neg hskip]
        cases hfk : lookup? fks col_name with
        | some fk0 =>
          dsimp only
          by_cases hempty0 : (pools fk0.references_table).isEmpty = true
          · by_cases hnul0 : col_info.is_nullable = true
            · rw [if_pos hempty0, if_pos hnul0]
              exact ih _ _ col ci fk hpair hskipc hfkc hempty hnul
            · rw [if_pos hempty0, if_neg hnul0]
              exact ⟨_, rfl⟩
          · rw [if_neg hempty0]
            exact ih _ _ col ci fk hpair hskipc hfkc hempty hnul
        | none =>
          dsimp only
          cases hal : attemptLoop table col_name col_info (cfgs col_name)
              (ucols.contains col_name || col_info.is_unique) 10 Value.null s with
          | assigned v0 s1 =>
            dsimp only
            exact ih _ _ col ci fk hpair hskipc hfkc hempty hnul
          | failed e s1 =>
            dsimp only
            exact ⟨e, rfl⟩
          | exhausted last s1 =>
            dsimp only
            by_cases hu : (ucols.contains col_name || col_info.is_unique) = true
            · rw [if_pos hu]
              by_cases htc : (strContains (pyLower col_info.type) "text" ||
                  strContains (pyLower col_info.type) "char") = true
              · rw [if_pos htc]
                exact ih _ _ col ci fk hpair hskipc hfkc hempty hnul
              · rw [if_neg htc]
                exact ⟨_, rfl⟩
            · rw [if_neg hu]
              exact ih _ _ col ci fk hpair hskipc hfkc hempty hnul

/-- C3: foreign-key columns are bound to the id pool of the referenced
table: (a) on success every emitted FK value is a pool member, or null with
an empty pool; (b) a non-nullable FK column with an empty pool makes
`generate_row` fail; (c) when that column is reached, the raised error names
the table, the column, and the missing parent table. -/
theorem C3_fk_pool_binding (schema : Schema) (s : GenState) (table : String)
    (pools : String → List Value) (cfgs : String → Option ColumnConfig)
    (ts : TableSchema)
    (hts : lookupTable schema table = some ts) :
    (∀ s2 row, generate_row schema s table pools cfgs = (s2, Except.ok row) →
      ∀ cv ∈ row, ∀ fk, lookup? ts.foreign_keys cv.1 = some fk →
        (pools fk.references_table = [] ∧ cv.2 = Value.null) ∨
          cv.2 ∈ pools fk.references_table) ∧
    (∀ col ci fk, (col, ci) ∈ ts.columns → skipColumn ci = false →
      lookup? ts.foreign_keys col = some fk → pools fk.references_table = [] →
      ci.is_nullable = false →
      ∃ e, (generate_row schema s table pools cfgs).2 = Except.error e) ∧
    (∀ col ci fk rest acc, skipColumn ci = false →
      lookup? ts.foreign_keys col = some fk → pools fk.references_table = [] →
      ci.is_nullable = false →
      (genColumns table ts.foreign_keys ts.unique_columns pools cfgs
          ((col, ci) :: rest) acc s).2 =
        Except.error ("Cannot generate data for " ++ table ++ "." ++ col ++
          ": No records found in parent table " ++ fk.references_table)) := by
  refine ⟨?_, ?_, ?_⟩
  · intro s2 row hrun cv hcv fk hfk
    unfold generate_row at hrun
    rw [hts] at hrun
    dsimp only at hrun
    exact genColumns_fk_entries table ts.foreign_keys ts.unique_columns pools cfgs
      ts.columns [] s s2 row hrun (by simp) cv hcv fk hfk
  · intro col ci fk hmem hskipc hfkc hempty hnul
    show ∃ e, (generate_row schema s table pools cfgs).2 = Except.error e
    unfold generate_row
    rw [hts]
    dsimp only
    exact genColumns_fk_fail table ts.foreign_keys ts.unique_columns pools cfgs
      ts.columns [] s col ci fk hmem hskipc hfkc hempty hnul
  · intro col ci fk rest acc hskipc hfkc hempty hnul
    rw [genColumns]
    rw [if_neg (by rw [hskipc]; exact Bool.false_ne_true), hfkc]
    dsimp only
    rw [if_pos (by rw [hempty]; rfl), if_neg (by rw [hnul]; exact Bool.false_ne_true)]

def schemaFK : Schema :=
  [("customers", ⟨[("id", ciIntNN)], [], []⟩),
   ("orders", ⟨[("id", ciIntNN), ("customer_id", ciIntNN)],
     [("customer_id", ⟨"customers", "id"⟩)], []⟩)]

def poolsC : String → List Value := fun t => if t = "customers" then [Value.int 7] else []

def oFK : Oracle := ⟨false, 0, 0, 0, "e", "n", "t", false, 0, "w", 0⟩

def sFK0 : GenState := ⟨fun _ _ => [], fun _ => oFK, 0⟩

theorem C3_fk_pool_binding_witness :
    (lookupTable schemaFK "orders" =
        some ⟨[("id", ciIntNN), ("customer_id", ciIntNN)],
          [("customer_id", ⟨"customers", "id"⟩)], []⟩ ∧
      (generate_row schemaFK sFK0 "orders" poolsC cfgNone).2 =
        Except.ok [("id", Value.int 1), ("customer_id", Value.int 7)]) ∧
    ((poolsC "customers" = [] ∧ Value.int 7 = Value.null) ∨
      Value.int 7 ∈ poolsC "customers") ∧
    (genColumns "orders" [("customer_id", FKRef.mk "customers" "id")] [] fkEmpty cfgNone
        [("customer_id", ciIntNN)] [] sFK0).2 =
      Except.error ("Cannot generate data for orders.customer_id" ++
        ": No records found in parent table customers") := by
  have hts : lookupTable schemaFK "orders" =
      some ⟨[("id", ciIntNN), ("customer_id", ciIntNN)],
        [("customer_id", ⟨"customers", "id"⟩)], []⟩ := by decide
  have hmain := C3_fk_pool_binding schemaFK sFK0 "orders" poolsC cfgNone _ hts
  have hmainE := C3_fk_pool_binding schemaFK sFK0 "orders" fkEmpty cfgNone _ hts
  have hrun : generate_row schemaFK sFK0 "orders" poolsC cfgNone =
      ((generate_row schemaFK sFK0 "orders" poolsC cfgNone).1,
        Except.ok [("id", Value.int 1), ("customer_id", Value.int 7)]) := by
    have h2 : (generate_row schemaFK sFK0 "orders" poolsC cfgNone).2 =
        Except.ok [("id", Value.int 1), ("customer_id", Value.int 7)] := by decide
    rw [← h2]
  refine ⟨⟨hts, by decide⟩, ?_, ?_⟩
  · exact hmain.1 _ _ hrun ("customer_id", Value.int 7) (by decide)
      ⟨"customers", "id"⟩ (by decide)
  · have h3 := hmainE.2.2 "customer_id" ciIntNN ⟨"customers", "id"⟩ [] []
      (by decide) (by decide) (by decide) (by decide)
    have hmsg : "Cannot generate data for " ++ "orders" ++ "." ++ "customer_id" ++
        ": No records found in parent table " ++ "customers" =
        "Cannot generate data for orders.customer_id" ++
          ": No records found in parent table customers" := by decide
    rw [hmsg] at h3
    exact h3

/-! ## Orchestration loop (src/src/autofill.py, claim C9)

The database inserter is an external collaborator: its state is the log of
inserted batches, `fetch_ids` is passed in as an abstract query function. -/

abbrev InserterState := List (String × List Row)

structure TableConfig where
  name : String
  row_count : Nat := 50
  columns : List ColumnConfig := []

/-- `for t_conf in cfg.tables: if t_conf.name == table_name: ...; break` —
the first matching entry wins. -/
def findTableConfig (tables : List TableConfig) (t : String) : Option TableConfig :=
  tables.find? (fun c => c.name == t)

/-- The per-table `column_configs_map` dict: later list entries overwrite
earlier ones, hence the reversed first-match lookup. -/
def columnConfigsMap (tconf : Option TableConfig) : String → Option ColumnConfig :=
  fun col =>
    match tconf with
    | some c => c.columns.reverse.find? (fun cc => cc.name == col)
    | none => none

/-- The `valid_fks` dict: one `fetch_ids` call per foreign key, keyed by the
referenced table (later foreign keys to the same table overwrite). -/
def buildValidFks (fetchIds : InserterState → String → String → List Value)
    (ins : InserterState) (fks : List (String × FKRef)) : String → List Value :=
  fks.foldl
    (fun m p => fun t =>
      if t = p.2.references_table then
        fetchIds ins p.2.references_table p.2.references_column
      else m t)
    (fun _ => [])

/-- The per-table row loop: `for _ in range(target_rows): try: row =
generator.generate_row(...); batch.append(row) except ValueError as ve:
echo(...); break`.  Returns the batch, the generator state, and the error
that stopped the loop, if any. -/
def genBatch (schema : Schema) (cfgsMap : String → Option ColumnConfig) (table : String) :
    Nat → (String → List Value) → GenState → List Row × GenState × Option String
  | 0, _, g => ([], g, none)
  | n + 1, pools, g =>
    match generate_row schema g table pools cfgsMap with
    | (g1, Except.ok row) =>
      let r := genBatch schema cfgsMap table n pools g1
      (row :: r.1, r.2)
    | (g1, Except.error e) => ([], g1, some e)

/-- The `for table_name in insertion_order:` loop of `main`: per table, look
up the configuration, fetch the FK pools, generate up to `target_rows` rows
(stopping at the first `ValueError`), and insert the batch when it is
nonempty.  Returns the per-table outcomes, the final inserter log and the
final generator state. -/
def processTables (schema : Schema)
    (fetchIds : InserterState → String → String → List Value)
    (tablesCfg : List TableConfig) :
    List String → InserterState → GenState →
    List (String × List Row × Option String) × InserterState × GenState
  | [], ins, g => ([], ins, g)
  | table :: rest, ins, g =>
    let tconf := findTableConfig tablesCfg table
    let target : Nat := match tconf with | some c => c.row_count | none => 50
    let cfgsMap := columnConfigsMap tconf
    let fks := match lookupTable schema table with
      | some ts => ts.foreign_keys
      | none => []
    let pools := buildValidFks fetchIds ins fks
    let r := genBatch schema cfgsMap table target pools g
    let ins1 := if r.1.isEmpty then ins else ins ++ [(table, r.1)]
    let rec2 := processTables schema fetchIds tablesCfg rest ins1 r.2.1
    ((table, r.1, r.2.2) :: rec2.1, rec2.2)

/-- C9: a `ValueError` from `generate_row` truncates the current table only.
(a) Every table of the insertion order gets processed — the loop continues
with the subsequent tables instead of aborting.  (b) The per-table row loop
either completes all requested rows with no error, or stops short at the
first failing `generate_row` call, keeping exactly the rows generated before
it.  (c) The inserter receives, in order, exactly the tables whose batches
are nonempty, with the kept rows. -/
theorem C9_value_error_truncates_current_table_only (schema : Schema)
    (fetchIds : InserterState → String → String → List Value)
    (tablesCfg : List TableConfig) :
    (∀ (order : List String) (ins : InserterState) (g : GenState),
      (processTables schema fetchIds tablesCfg order ins g).1.map (fun e => e.1) = order) ∧
    (∀ (table : String) (cfgsMap : String → Option ColumnConfig)
        (pools : String → List Value) (n : Nat) (g : GenState),
      ((genBatch schema cfgsMap table n pools g).2.2 = none ∧
        (genBatch schema cfgsMap table n pools g).1.length = n) ∨
      (∃ e s_mid,
        (genBatch schema cfgsMap table n pools g).2.2 = some e ∧
        (genBatch schema cfgsMap table n pools g).1.length < n ∧
        generate_row schema s_mid table pools cfgsMap =
          ((genBatch schema cfgsMap table n pools g).2.1, Except.error e))) ∧
    (∀ (order : List String) (ins : InserterState) (g : GenState),
      (processTables schema fetchIds tablesCfg order ins g).2.1 =
        ins ++ ((processTables schema fetchIds tablesCfg order ins g).1.filter
          (fun e => !e.2.1.isEmpty)).map (fun e => (e.1, e.2.1))) := by
  refine ⟨?_, ?_, ?_⟩
  · intro order
    induction order with
    | nil => intro ins g; rfl
    | cons table rest ih =>
      intro ins g
      rw [processTables]
      dsimp only
      rw [List.map_cons]
      rw [ih]
  · intro table cfgsMap pools n
    induction n with
    | zero =>
      intro g
      exact Or.inl ⟨rfl, rfl⟩
    | succ n ih =>
      intro g
      rw [genBatch]
      rcases hgen : generate_row schema g table pools cfgsMap with ⟨g1, res⟩
      cases res with
      | ok row =>
        dsimp only
        rcases ih g1 with ⟨he, hl⟩ | ⟨e, s_mid, he, hl, hmid⟩
        · exact Or.inl ⟨he, by simpa using hl⟩
        · exact Or.inr ⟨e, s_mid, he, by simpa using hl, hmid⟩
      | error e =>
        dsimp only
        refine Or.inr ⟨e, g, rfl, Nat.succ_pos n, ?_⟩
        exact hgen
  · intro order
    induction order with
    | nil => intro ins g; simp [processTables]
    | cons table rest ih =>
      intro ins g
      rw [processTables]
      dsimp only
      by_cases hemp : (genBatch schema
          (columnConfigsMap (findTableConfig tablesCfg table)) table
          (match findTableConfig tablesCfg table with | some c => c.row_count | none => 50)
          (buildValidFks fetchIds ins
            (match lookupTable schema table with
              | some ts => ts.foreign_keys
              | none => [])) g).1.isEmpty = true
      · rw [if_pos hemp, ih]
        rw [List.filter_cons]
        simp only [hemp, Bool.not_true, Bool.false_eq_true, if_neg, not_false_eq_true]
      · rw [if_neg hemp, ih]
        rw [List.filter_cons]
        simp only [hemp, Bool.not_false, if_pos, Bool.false_eq_true]
        rw [List.map_cons, List.append_assoc]
        rfl

end DbAutofill
